import Mathlib

/-!
Verification of the venue import / geocoding pipeline
(`backend/import_venues_csv.py`) of the gig-tracker backend.

The Python source is shallowly embedded below.  Strings are modelled by
Lean `String` / `List Char`; Python regular-expression substitutions are
modelled by explicit character-level scanners that reproduce `re.sub`
semantics (left-to-right scan, word boundaries `\b` computed on the
original string, backtracking preference of optional groups) for the
specific patterns used by the source.  Python floats appear only as
opaque values compared for equality, so they are modelled by `Rat`.
The external geocoding service is modelled as an oracle
`String → Nat → Option Coord` giving, for each query string and each
per-candidate attempt index, the answer of that lookup attempt.
-/

/-! ### Character-level helpers (Python `str` operations) -/

def isWS (c : Char) : Bool := c.isWhitespace

/-- Python regex word character `\w` (ASCII range, which is all the
source ever feeds it): letters, digits, underscore. -/
def isWordChar (c : Char) : Bool := c.isAlphanum || c == '_'

/-- Does `l` start with `pat` (exact characters)? -/
def chPre : List Char → List Char → Bool
  | [], _ => true
  | _ :: _, [] => false
  | p :: ps, c :: cs => p == c && chPre ps cs

/-- Does `l` contain `pat` as a contiguous sublist? -/
def chSub (pat : List Char) : List Char → Bool
  | [] => chPre pat []
  | c :: cs => chPre pat (c :: cs) || chSub pat cs

/-- Case-insensitively match the lowercase literal `pat` at the head of
`l`; on success return the rest of `l`. -/
def dropCI : List Char → List Char → Option (List Char)
  | [], l => some l
  | _ :: _, [] => none
  | p :: ps, c :: cs => if c.toLower == p then dropCI ps cs else none

def countLeadingWS : List Char → Nat
  | [] => 0
  | c :: rest => if isWS c then countLeadingWS rest + 1 else 0

/-- Python `str.strip(chars)`: drop characters satisfying `p` from both
ends. -/
def stripSet (p : Char → Bool) (l : List Char) : List Char :=
  ((l.dropWhile p).reverse.dropWhile p).reverse

/-- Python `str.strip()` on a character list. -/
def trimChars (l : List Char) : List Char := stripSet isWS l

/-- Python `str.strip()`. -/
def pyStrip (s : String) : String := String.mk (trimChars s.data)

/-- Python string falsiness (`not s` / `or`), via the character list. -/
def strEmpty (s : String) : Bool := s.data.isEmpty

/-- Python `str.lower()` (ASCII inputs). -/
def lowerStr (s : String) : String := String.mk (s.data.map Char.toLower)

/-- Python `s.split(",")`. -/
def splitComma : List Char → List (List Char)
  | [] => [[]]
  | c :: rest =>
    if c = ',' then [] :: splitComma rest
    else
      match splitComma rest with
      | s :: ss => (c :: s) :: ss
      | [] => [[c]]

def dropTrailingSlashes (l : List Char) : List Char :=
  (l.reverse.dropWhile (· == '/')).reverse

/-! ### `re.sub` scanner

`subScan m repl fuel prev l` scans `l` left to right.  At each position
the matcher `m` receives the character preceding the position in the
original string (for `\b`) and the remaining characters; it returns the
length of a match, or `none`.  On a match the replacement is emitted and
the scan resumes after the matched span, exactly as `re.sub` does.  All
patterns used here match at least one character, so `fuel = l.length`
always suffices. -/

def subScan (m : Option Char → List Char → Option Nat) (repl : List Char) :
    Nat → Option Char → List Char → List Char
  | 0, _, l => l
  | _ + 1, _, [] => []
  | fuel + 1, prev, c :: rest =>
    match m prev (c :: rest) with
    | some n =>
      let k := max n 1
      repl ++ subScan m repl fuel (((c :: rest).take k).getLastD c) ((c :: rest).drop k)
    | none => c :: subScan m repl fuel (some c) rest

def reSub (m : Option Char → List Char → Option Nat) (repl : List Char)
    (l : List Char) : List Char :=
  subScan m repl l.length none l

/-- `\b` holds before the (word) first character of a pattern iff the
preceding character is absent or not a word character. -/
def noWordBefore : Option Char → Bool
  | none => true
  | some p => !isWordChar p

/-- `\b` after a word character holds iff the next character is absent or
not a word character. -/
def nextNonWord : List Char → Bool
  | [] => true
  | c :: _ => !isWordChar c

/-- `\b` after a non-word character (a consumed '.') holds iff the next
character is a word character. -/
def nextIsWord : List Char → Bool
  | [] => false
  | c :: _ => isWordChar c

/-- `POSTCODE_RE = \b\d{5}\b`. -/
def matchPostcode (prev : Option Char) (l : List Char) : Option Nat :=
  match l with
  | d1 :: d2 :: d3 :: d4 :: d5 :: rest =>
    if d1.isDigit && d2.isDigit && d3.isDigit && d4.isDigit && d5.isDigit
        && noWordBefore prev && nextNonWord rest
    then some 5 else none
  | _ => none

/-- Pattern `\bLIT\.?\b` (case-insensitive), e.g. `\bJl\.?\b`.  The
optional dot is consumed only when `\b` still holds after it, i.e. when a
word character follows; otherwise the regex backtracks to the bare
literal, after which `\b` holds because '.' is not a word character. -/
def matchAbbrDotOpt (lit : List Char) (prev : Option Char) (l : List Char) :
    Option Nat :=
  if noWordBefore prev then
    match dropCI lit l with
    | some ('.' :: rest2) =>
      if nextIsWord rest2 then some (lit.length + 1) else some lit.length
    | some rest => if nextNonWord rest then some lit.length else none
    | none => none
  else none

/-- Pattern `\bLIT\.\b` (case-insensitive), e.g. `\bBar\.\b`: the dot is
mandatory and `\b` after it requires a following word character. -/
def matchAbbrDotReq (lit : List Char) (prev : Option Char) (l : List Char) :
    Option Nat :=
  if noWordBefore prev then
    match dropCI lit l with
    | some ('.' :: rest2) => if nextIsWord rest2 then some (lit.length + 1) else none
    | _ => none
  else none

/-- Pattern `\bLIT\b` (case-insensitive), e.g. `\bKota\b`. -/
def matchAbbrPlain (lit : List Char) (prev : Option Char) (l : List Char) :
    Option Nat :=
  if noWordBefore prev then
    match dropCI lit l with
    | some rest => if nextNonWord rest then some lit.length else none
    | none => none
  else none

/-- Pattern `\bKab(\.|upaten)?\b` (case-insensitive): alternatives are
tried in order '.', "upaten", empty, each followed by the `\b` check. -/
def matchKab (prev : Option Char) (l : List Char) : Option Nat :=
  if noWordBefore prev then
    match dropCI ['k', 'a', 'b'] l with
    | none => none
    | some rest =>
      match rest with
      | '.' :: rest2 => if nextIsWord rest2 then some 4 else some 3
      | _ =>
        match dropCI ['u', 'p', 'a', 't', 'e', 'n'] rest with
        | some rest3 =>
          if nextNonWord rest3 then some 9
          else none
        | none => if nextNonWord rest then some 3 else none
  else none

/-- Pattern `\s*,\s*` (replaced by ", "). -/
def matchCommaWS (_ : Option Char) (l : List Char) : Option Nat :=
  let w := countLeadingWS l
  match l.drop w with
  | ',' :: rest => some (w + 1 + countLeadingWS rest)
  | _ => none

/-- Pattern `\s{2,}` (replaced by " "). -/
def matchMultiWS (_ : Option Char) (l : List Char) : Option Nat :=
  let w := countLeadingWS l
  if w ≥ 2 then some w else none

/-- The ordered `ABBR_MAP` substitutions of the source, applied
sequentially. -/
def applyAbbrs (l : List Char) : List Char :=
  let l := reSub (matchAbbrDotOpt ['j', 'l']) "Jalan".data l
  let l := reSub (matchAbbrDotOpt ['g', 'g']) "Gang".data l
  let l := reSub (matchAbbrDotOpt ['k', 'e', 'c']) [] l
  let l := reSub matchKab [] l
  let l := reSub (matchAbbrPlain ['k', 'o', 't', 'a']) [] l
  let l := reSub (matchAbbrDotReq ['b', 'a', 'r']) "Barat".data l
  let l := reSub (matchAbbrDotReq ['s', 'e', 'l']) "Selatan".data l
  let l := reSub (matchAbbrDotReq ['u', 't']) "Utara".data l
  let l := reSub (matchAbbrDotReq ['t', 'i', 'm']) "Timur".data l
  reSub (matchAbbrPlain ['r', 'e', 'g', 'e', 'n', 'c', 'y']) [] l

def isCommaSpace (c : Char) : Bool := c == ',' || c == ' '

/-- Python `"bali" in a.lower()` style check: is the (lowercase) pattern
a substring of the lowercased string? -/
def lowerContains (s : String) (pat : List Char) : Bool :=
  chSub pat (s.data.map Char.toLower)

/-- The final step of `normalize_address` (lines 49-53): append the
region and country names when they are not already present as
case-insensitive substrings. -/
def ensureBaliIndonesia (s : String) : String :=
  let s := if lowerContains s ['b', 'a', 'l', 'i'] then s else s ++ ", Bali"
  if lowerContains s "indonesia".data then s else s ++ ", Indonesia"

/-- Embedding of `normalize_address` (source lines 38-54). -/
def normalize_address (addr : String) : String :=
  let a := trimChars addr.data
  let a := reSub matchPostcode [] a
  let a := applyAbbrs a
  let a := reSub matchCommaWS (", ".data) a
  let a := reSub matchMultiWS [' '] a
  let a := trimChars (stripSet isCommaSpace a)
  ensureBaliIndonesia (String.mk a)

/-! ### Field cleaners (source lines 56-68) -/

/-- Embedding of `clean_instagram`: `None`/empty is falsy; strip, drop a
single leading '@', drop trailing slashes (`re.sub(r"/+$", "", h)`), and
an empty result becomes `None` (`or None`). -/
def clean_instagram : Option String → Option String
  | none => none
  | some handle =>
    if strEmpty handle then none
    else
      let h := pyStrip handle
      let h := if h.data.head? = some '@' then String.mk h.data.tail else h
      let h2 := String.mk (dropTrailingSlashes h.data)
      if strEmpty h2 then none else some h2

/-- `re.match(r"^https?://", u, re.I)`: "http" case-insensitively, an
optional 's', then "://".  (No backtracking subtlety: if the optional
's' is consumed wrongly the next character could not be ':' anyway.) -/
def httpSchemeMatch (l : List Char) : Bool :=
  match dropCI ['h', 't', 't', 'p'] l with
  | none => false
  | some rest =>
    let rest' := match rest with
      | c :: rs => if c.toLower == 's' then rs else rest
      | [] => rest
    (chPre "://".data rest')

/-- Embedding of `resolve_website`. -/
def resolve_website : Option String → Option String
  | none => none
  | some link =>
    if strEmpty link then none
    else
      let u := pyStrip link
      if httpSchemeMatch u.data then some u else none

/-! ### Candidate generation and the geocoding driver (lines 70-108) -/

/-- `[p.strip() for p in norm.split(",") if p.strip()]`. -/
def addrPartsS (s : String) : List String :=
  ((splitComma s.data).map (fun l => String.mk (trimChars l))).filter
    (fun p => !strEmpty p)

/-- The ordered candidate list built by `geocode_bali` (lines 76-91) from
the raw address: the normalized address; the first two comma-separated
segments joined (when at least two segments exist and the join differs
case-insensitively from the normalized address); the first segment plus
", Bali, Indonesia" (when case-insensitively new). -/
def geocodeCandidates (raw : String) : List String :=
  let norm := normalize_address raw
  let parts := addrPartsS norm
  let cands : List String :=
    if parts.length ≥ 2 then
      let c1 := String.intercalate ", " (parts.take 2)
      if lowerStr c1 ≠ lowerStr norm then [norm, c1] else [norm]
    else [norm]
  let name_only := match parts with
    | p :: _ => p
    | [] => String.mk ((splitComma raw.data).headD [])
  let c2 := name_only ++ ", Bali, Indonesia"
  if (cands.map lowerStr).contains (lowerStr c2) then cands else cands ++ [c2]

/-- A geographic coordinate (`{"lat": float, "lon": float}`); floats are
only ever compared for equality, so `Rat` stands in for them. -/
structure Coord where
  lat : Rat
  lon : Rat
deriving DecidableEq, Repr

/-- The geocode cache: a JSON object mapping raw trimmed address strings
to coordinates, modelled as an association list. -/
abbrev Cache := List (String × Coord)

def cacheLookup (c : Cache) (k : String) : Option Coord :=
  (c.find? (fun p => p.1 == k)).map Prod.snd

/-- The external lookup service: for a query string and a per-candidate
attempt index, the (deterministic) answer of that attempt.  `none` covers
both a `None` response and an ambiguous one (`exactly_one` failure). -/
abbrev Oracle := String → Nat → Option Coord

/-- The inner `for _ in range(tries)` loop for one candidate, attempts
numbered from `t0`. -/
def tryAttempts (g : Oracle) (cand : String) : Nat → Nat → Option Coord
  | _, 0 => none
  | t0, fuel + 1 =>
    match g cand t0 with
    | some r => some r
    | none => tryAttempts g cand (t0 + 1) fuel

/-- The outer `for cand in candidates` loop: first success wins. -/
def tryCandidates (g : Oracle) (tries : Nat) : List String → Option Coord
  | [] => none
  | c :: cs =>
    match tryAttempts g c 0 tries with
    | some r => some r
    | none => tryCandidates g tries cs

/-- Embedding of `geocode_bali` (lines 70-108).  The key is the
whitespace-trimmed raw address; a cache hit returns immediately; on a
miss the candidate/retry loops run and the result of the first
successful attempt is stored under the key before being returned, while
total failure returns `None` and leaves the cache untouched. -/
def geocode_bali (g : Oracle) (cache : Cache) (raw : String) (tries : Nat) :
    Option Coord × Cache :=
  let key := pyStrip raw
  match cacheLookup cache key with
  | some v => (some v, cache)
  | none =>
    match tryCandidates g tries (geocodeCandidates raw) with
    | some r => (some r, cache ++ [(key, r)])
    | none => (none, cache)

/-! ### Store records, CSV rows, and the per-row reconciler (lines 114-222) -/

/-- The persisted venue entity (`models.Venue`); `id` is store-internal
and never read by the importer. -/
structure Venue where
  name : String
  address : String
  district : Option String
  lat : Rat
  lon : Rat
  instagram : Option String
  website : Option String
  notes : Option String
deriving DecidableEq, Repr

/-- One CSV row as seen through `csv.DictReader.get`: a missing column
gives `none`, a present-but-empty cell gives `some ""`.  The two
possible spellings of the link column key are modelled separately,
mirroring `row.get(" Instgram link") or row.get("Instgram link")`. -/
structure RowR where
  venue : Option String
  addressNotes : Option String
  instagramName : Option String
  instgramLinkSp : Option String
  instgramLink : Option String
deriving DecidableEq, Repr

/-- Python `a or b` on optional strings (empty string is falsy). -/
def pyOr (a b : Option String) : Option String :=
  match a with
  | some s => if strEmpty s then b else some s
  | none => b

/-- Python truthiness of an optional string. -/
def optTruthy : Option String → Bool
  | none => false
  | some s => !strEmpty s

def rowName (r : RowR) : String := pyStrip (r.venue.getD "")

def rowAddr (r : RowR) : String := pyStrip (r.addressNotes.getD "")

def rowInstaName (r : RowR) : Option String := clean_instagram r.instagramName

def rowLink (r : RowR) : String :=
  pyStrip ((pyOr r.instgramLinkSp r.instgramLink).getD "")

/-- A row survives validation when both name and address are non-blank. -/
def validRow (r : RowR) : Bool := !strEmpty (rowName r) && !strEmpty (rowAddr r)

structure Counters where
  created : Nat
  updated : Nat
  skipped : Nat
  failed : Nat
deriving DecidableEq, Repr

structure LoopState where
  db : List Venue
  cache : Cache
  cnt : Counters
deriving DecidableEq, Repr

/-- `db.query(Venue).filter(Venue.name == name).one_or_none()`, under the
assumption that names are unique in the store (`one_or_none` raises
otherwise, which is outside this model). -/
def findVenue (db : List Venue) (name : String) : Option Venue :=
  db.find? (fun v => v.name == name)

/-- In-place mutation of the queried record: the first venue with the
given name is replaced. -/
def replaceFirst (db : List Venue) (name : String) (v' : Venue) : List Venue :=
  match db with
  | [] => []
  | v :: rest =>
    if v.name == name then v' :: rest else v :: replaceFirst rest name v'

/-- `if existing.address != address: ...` (line 182-183). -/
def recon1 (v : Venue) (address : String) : Venue × Bool :=
  if v.address ≠ address then ({ v with address := address }, true) else (v, false)

/-- `if existing.lat != loc["lat"] or existing.lon != loc["lon"]: ...`
(lines 184-185): both coordinates are rewritten together. -/
def recon2 (p : Venue × Bool) (loc : Coord) : Venue × Bool :=
  if p.1.lat ≠ loc.lat ∨ p.1.lon ≠ loc.lon then
    ({ p.1 with lat := loc.lat, lon := loc.lon }, true)
  else p

/-- `if existing.instagram != insta_name: ...` (lines 186-187). -/
def recon3 (p : Venue × Bool) (insta : Option String) : Venue × Bool :=
  if p.1.instagram ≠ insta then ({ p.1 with instagram := insta }, true) else p

/-- `if website and existing.website != website: ...` (lines 188-189):
the stored website is only overwritten by a truthy new value. -/
def recon4 (p : Venue × Bool) (website : Option String) : Venue × Bool :=
  if optTruthy website = true ∧ p.1.website ≠ website then
    ({ p.1 with website := website }, true)
  else p

/-- The whole update branch of the reconciler (lines 181-189); the
boolean is the `changed` flag. -/
def reconcileVenue (existing : Venue) (address : String) (loc : Coord)
    (insta : Option String) (website : Option String) : Venue × Bool :=
  recon4 (recon3 (recon2 (recon1 existing address) loc) insta) website

/-- One iteration of the `for row in reader` loop (lines 161-206). -/
def processRow (g : Oracle) (tries : Nat) (st : LoopState) (r : RowR) :
    LoopState :=
  let name := rowName r
  let address := rowAddr r
  let insta_name := rowInstaName r
  let insta_link := rowLink r
  if strEmpty name || strEmpty address then
    { st with cnt := { st.cnt with skipped := st.cnt.skipped + 1 } }
  else
    match geocode_bali g st.cache address tries with
    | (none, cache') =>
      { st with cache := cache',
                cnt := { st.cnt with failed := st.cnt.failed + 1 } }
    | (some loc, cache') =>
      let website := resolve_website (some insta_link)
      match findVenue st.db name with
      | some existing =>
        let vc := reconcileVenue existing address loc insta_name website
        { db := replaceFirst st.db name vc.1,
          cache := cache',
          cnt := if vc.2 then { st.cnt with updated := st.cnt.updated + 1 }
                 else { st.cnt with skipped := st.cnt.skipped + 1 } }
      | none =>
        { db := st.db ++ [{ name := name, address := address, district := none,
                            lat := loc.lat, lon := loc.lon,
                            instagram := insta_name, website := website,
                            notes := none }],
          cache := cache',
          cnt := { st.cnt with created := st.cnt.created + 1 } }

def initState (db : List Venue) (cache : Cache) : LoopState :=
  { db := db, cache := cache, cnt := { created := 0, updated := 0, skipped := 0, failed := 0 } }

/-- Outcome of a whole run: the reported counters, the store contents as
persisted after commit/rollback, and the cache as flushed to disk. -/
structure RunResult where
  counters : Counters
  persisted : List Venue
  cacheOut : Cache
deriving DecidableEq, Repr

/-- Embedding of the record loop plus the run epilogue (lines 158-220):
the loop never consults `dry_run`; the cache is flushed unconditionally;
dry-run rolls the store back to its initial contents, a real run commits
the final contents. -/
def runImport (g : Oracle) (tries : Nat) (dryRun : Bool) (db₀ : List Venue)
    (cache₀ : Cache) (rows : List RowR) : RunResult :=
  let fin := rows.foldl (processRow g tries) (initState db₀ cache₀)
  { counters := fin.cnt,
    persisted := if dryRun then db₀ else fin.db,
    cacheOut := fin.cache }

/-! ### Header validation (lines 140-153) -/

/-- The `wanted` list, after the swap that tolerates a sheet that omits
the leading space in " Instgram link". -/
def wantedHeaders (headers : List String) : List String :=
  if headers.contains "Instgram link" ∧ ¬ headers.contains " Instgram link" then
    ["Venue", "Address / Notes", "Instagram name", "Instgram link"]
  else
    ["Venue", "Address / Notes", "Instagram name", " Instgram link"]

/-- Does the header check fail (exit code 2)?  Headers are compared
after stripping surrounding whitespace. -/
def headerMissing (fieldnames : List String) : Bool :=
  let headers := fieldnames.map pyStrip
  (wantedHeaders headers).any (fun w => !headers.contains w)

/-- Top level of `main` after the input file has been opened: a missing
required header aborts with exit code 2 before any record is processed;
otherwise the import runs. -/
def runMain (g : Oracle) (tries : Nat) (fieldnames : List String)
    (dryRun : Bool) (db₀ : List Venue) (cache₀ : Cache) (rows : List RowR) :
    Except Nat RunResult :=
  if headerMissing fieldnames then Except.error 2
  else Except.ok (runImport g tries dryRun db₀ cache₀ rows)

/-! ### Helper lemmas: trimming -/

theorem dropWhile_head_not {p : Char → Bool} :
    ∀ {l : List Char} {c : Char} {t : List Char},
      l.dropWhile p = c :: t → p c = false := by
  intro l
  induction l with
  | nil => intro c t h; simp [List.dropWhile] at h
  | cons a rest ih =>
    intro c t h
    cases ha : p a with
    | true => rw [List.dropWhile, ha] at h; exact ih h
    | false =>
      rw [List.dropWhile, ha] at h
      cases h
      exact ha

theorem dropWhile_is_suffix (p : Char → Bool) (l : List Char) :
    ∃ pre, pre ++ l.dropWhile p = l := by
  induction l with
  | nil => exact ⟨[], rfl⟩
  | cons a rest ih =>
    cases ha : p a with
    | true =>
      obtain ⟨pre, hpre⟩ := ih
      exact ⟨a :: pre, by rw [List.dropWhile, ha, List.cons_append, hpre]⟩
    | false => exact ⟨[], by rw [List.dropWhile, ha]; rfl⟩

theorem trimChars_head_not_ws {l : List Char} {c : Char} {t : List Char}
    (h : trimChars l = c :: t) : isWS c = false := by
  unfold trimChars stripSet at h
  obtain ⟨pre, hpre⟩ := dropWhile_is_suffix isWS (l.dropWhile isWS).reverse
  have hrev := congrArg List.reverse hpre
  rw [List.reverse_append, h] at hrev
  have hm : l.dropWhile isWS = c :: (t ++ pre.reverse) := by
    rw [List.reverse_reverse] at hrev
    simpa using hrev.symm
  exact dropWhile_head_not hm

theorem trimChars_reverse_dropWhile {l : List Char} {c : Char} {t : List Char}
    (h : (trimChars l).reverse = c :: t) : isWS c = false := by
  unfold trimChars stripSet at h
  rw [List.reverse_reverse] at h
  exact dropWhile_head_not h

theorem trimChars_idem (l : List Char) : trimChars (trimChars l) = trimChars l := by
  have h1 : (trimChars l).dropWhile isWS = trimChars l := by
    cases hx : trimChars l with
    | nil => simp
    | cons c t =>
      have := trimChars_head_not_ws hx
      rw [List.dropWhile, this]
  have h2 : (trimChars l).reverse.dropWhile isWS = (trimChars l).reverse := by
    cases hx : (trimChars l).reverse with
    | nil => simp
    | cons c t =>
      have := trimChars_reverse_dropWhile hx
      rw [List.dropWhile, this]
  show stripSet isWS (trimChars l) = trimChars l
  rw [stripSet, h1, h2, List.reverse_reverse]

theorem pyStrip_idem (s : String) : pyStrip (pyStrip s) = pyStrip s := by
  show String.mk (trimChars (trimChars s.data)) = String.mk (trimChars s.data)
  rw [trimChars_idem]

theorem rowAddr_pyStrip (r : RowR) : pyStrip (rowAddr r) = rowAddr r := by
  unfold rowAddr
  exact pyStrip_idem _

/-! ### Helper lemmas: cache lookup -/

theorem cacheLookup_append_of_some {c d : Cache} {k : String} {v : Coord}
    (h : cacheLookup c k = some v) : cacheLookup (c ++ d) k = some v := by
  induction c with
  | nil => simp [cacheLookup] at h
  | cons e rest ih =>
    cases he : (e.1 == k) with
    | true =>
      simp only [cacheLookup, List.find?, he, Option.map] at h ⊢
      exact h
    | false =>
      simp only [cacheLookup, List.cons_append, List.find?, he] at h ⊢
      exact ih h

theorem cacheLookup_append_single_self {c : Cache} {k : String} {v : Coord}
    (h : cacheLookup c k = none) : cacheLookup (c ++ [(k, v)]) k = some v := by
  induction c with
  | nil => simp [cacheLookup, List.find?]
  | cons e rest ih =>
    cases he : (e.1 == k) with
    | true => simp [cacheLookup, List.find?, he] at h
    | false =>
      simp only [cacheLookup, List.find?, he] at h
      simp only [cacheLookup, List.cons_append, List.find?, he]
      exact ih h

theorem cacheLookup_append_single_cases {c : Cache} {k₀ : String} {v₀ : Coord}
    {k : String} {v : Coord}
    (h : cacheLookup (c ++ [(k₀, v₀)]) k = some v) :
    cacheLookup c k = some v ∨ (k = k₀ ∧ v = v₀) := by
  induction c with
  | nil =>
    simp only [List.nil_append, cacheLookup, List.find?] at h
    cases he : (k₀ == k) with
    | true =>
      rw [he] at h
      simp only [Option.map] at h
      right
      refine ⟨(beq_iff_eq.mp he).symm, ?_⟩
      cases h
      rfl
    | false => rw [he] at h; simp at h
  | cons e rest ih =>
    cases he : (e.1 == k) with
    | true =>
      simp only [cacheLookup, List.cons_append, List.find?, he, Option.map] at h ⊢
      left
      exact h
    | false =>
      simp only [cacheLookup, List.cons_append, List.find?, he] at h ⊢
      exact ih h

/-! ### Helper lemmas: venue lookup and in-place replacement -/

theorem findVenue_append_of_some {db d : List Venue} {n : String} {ex : Venue}
    (h : findVenue db n = some ex) : findVenue (db ++ d) n = some ex := by
  induction db with
  | nil => simp [findVenue] at h
  | cons e rest ih =>
    cases he : (e.name == n) with
    | true =>
      simp only [findVenue, List.find?, he] at h ⊢
      exact h
    | false =>
      simp only [findVenue, List.cons_append, List.find?, he] at h ⊢
      exact ih h

theorem findVenue_append_single_of_none {db : List Venue} {n : String} {v : Venue}
    (h : findVenue db n = none) (hv : (v.name == n) = true) :
    findVenue (db ++ [v]) n = some v := by
  induction db with
  | nil => simp [findVenue, List.find?, hv]
  | cons e rest ih =>
    cases he : (e.name == n) with
    | true => simp [findVenue, List.find?, he] at h
    | false =>
      simp only [findVenue, List.find?, he] at h
      simp only [findVenue, List.cons_append, List.find?, he]
      exact ih h

theorem findVenue_replaceFirst_self {db : List Venue} {n : String} {ex v' : Venue}
    (h : findVenue db n = some ex) (hv : (v'.name == n) = true) :
    findVenue (replaceFirst db n v') n = some v' := by
  induction db with
  | nil => simp [findVenue] at h
  | cons e rest ih =>
    cases he : (e.name == n) with
    | true => simp [replaceFirst, he, findVenue, List.find?, hv]
    | false =>
      simp only [findVenue, List.find?, he] at h
      simp only [replaceFirst, he, findVenue, List.find?]
      exact ih h

theorem findVenue_replaceFirst_ne {db : List Venue} {n' n : String} {v' : Venue}
    (hv : (v'.name == n) = false) (hne : (n' == n) = false) :
    findVenue (replaceFirst db n' v') n = findVenue db n := by
  induction db with
  | nil => simp [replaceFirst]
  | cons e rest ih =>
    cases he : (e.name == n') with
    | true =>
      have hen : (e.name == n) = false := by
        have : e.name = n' := beq_iff_eq.mp he
        rw [this]
        exact hne
      simp [replaceFirst, he, findVenue, List.find?, hv, hen]
    | false =>
      cases hen : (e.name == n) with
      | true => simp [replaceFirst, he, findVenue, List.find?, hen]
      | false =>
        simp only [replaceFirst, he, findVenue, List.find?, hen]
        exact ih

theorem replaceFirst_id {db : List Venue} {n : String} {ex : Venue}
    (h : findVenue db n = some ex) : replaceFirst db n ex = db := by
  induction db with
  | nil => rfl
  | cons e rest ih =>
    cases he : (e.name == n) with
    | true =>
      simp only [findVenue, List.find?, he] at h
      cases h
      simp [replaceFirst, he]
    | false =>
      simp only [findVenue, List.find?, he] at h
      simp [replaceFirst, he, ih h]

/-! ### Helper lemmas: the reconciler -/

theorem reconcileVenue_fields (ex : Venue) (a : String) (loc : Coord)
    (i : Option String) (w : Option String) :
    (reconcileVenue ex a loc i w).1.name = ex.name ∧
    (reconcileVenue ex a loc i w).1.address = a ∧
    (reconcileVenue ex a loc i w).1.lat = loc.lat ∧
    (reconcileVenue ex a loc i w).1.lon = loc.lon ∧
    (reconcileVenue ex a loc i w).1.instagram = i ∧
    (optTruthy w = true → (reconcileVenue ex a loc i w).1.website = w) ∧
    (optTruthy w = false → (reconcileVenue ex a loc i w).1.website = ex.website) := by
  unfold reconcileVenue recon1 recon2 recon3 recon4
  split_ifs <;> simp_all

theorem reconcileVenue_noop {ex : Venue} {a : String} {loc : Coord}
    {i : Option String} {w : Option String}
    (h1 : ex.address = a) (h2 : ex.lat = loc.lat) (h3 : ex.lon = loc.lon)
    (h4 : ex.instagram = i) (h5 : optTruthy w = true → ex.website = w) :
    reconcileVenue ex a loc i w = (ex, false) := by
  have e1 : recon1 ex a = (ex, false) := by
    unfold recon1; rw [if_neg (by simp [h1])]
  have e2 : recon2 (ex, false) loc = (ex, false) := by
    unfold recon2; rw [if_neg (by simp [h2, h3])]
  have e3 : recon3 (ex, false) i = (ex, false) := by
    unfold recon3; rw [if_neg (by simp [h4])]
  have e4 : recon4 (ex, false) w = (ex, false) := by
    unfold recon4
    rw [if_neg (by intro hc; exact hc.2 (h5 hc.1))]
  rw [reconcileVenue, e1, e2, e3, e4]

theorem reconcileVenue_changed_latlon {ex : Venue} {a : String} {loc : Coord}
    {i : Option String} {w : Option String}
    (h : ex.lat ≠ loc.lat ∨ ex.lon ≠ loc.lon) :
    (reconcileVenue ex a loc i w).2 = true := by
  unfold reconcileVenue recon1 recon2 recon3 recon4
  split_ifs <;> simp_all

theorem reconcileVenue_changed_insta {ex : Venue} {a : String} {loc : Coord}
    {i : Option String} {w : Option String}
    (h : ex.instagram ≠ i) :
    (reconcileVenue ex a loc i w).2 = true := by
  unfold reconcileVenue recon1 recon2 recon3 recon4
  split_ifs <;> simp_all

/-! ### Helper lemmas: the geocoding driver -/

/-- The pure part of `geocode_bali` on a cache miss: run the candidate
and retry loops against the oracle. -/
def pureLookup (g : Oracle) (tries : Nat) (raw : String) : Option Coord :=
  tryCandidates g tries (geocodeCandidates raw)

theorem geocode_bali_hit {g : Oracle} {cache : Cache} {raw : String} {tries : Nat}
    {v : Coord} (h : cacheLookup cache (pyStrip raw) = some v) :
    geocode_bali g cache raw tries = (some v, cache) := by
  simp [geocode_bali, h]

theorem geocode_bali_miss_some {g : Oracle} {cache : Cache} {raw : String}
    {tries : Nat} {r : Coord}
    (h : cacheLookup cache (pyStrip raw) = none)
    (h2 : pureLookup g tries raw = some r) :
    geocode_bali g cache raw tries = (some r, cache ++ [(pyStrip raw, r)]) := by
  unfold pureLookup at h2
  simp [geocode_bali, h, h2]

theorem geocode_bali_miss_none {g : Oracle} {cache : Cache} {raw : String}
    {tries : Nat}
    (h : cacheLookup cache (pyStrip raw) = none)
    (h2 : pureLookup g tries raw = none) :
    geocode_bali g cache raw tries = (none, cache) := by
  unfold pureLookup at h2
  simp [geocode_bali, h, h2]

theorem geocode_bali_cache_mono {g : Oracle} {cache : Cache} {raw : String}
    {tries : Nat} {k : String} {v : Coord}
    (h : cacheLookup cache k = some v) :
    cacheLookup (geocode_bali g cache raw tries).2 k = some v := by
  cases hc : cacheLookup cache (pyStrip raw) with
  | some w => rw [geocode_bali_hit hc]; exact h
  | none =>
    cases ht : pureLookup g tries raw with
    | some r =>
      rw [geocode_bali_miss_some hc ht]
      exact cacheLookup_append_of_some h
    | none => rw [geocode_bali_miss_none hc ht]; exact h

theorem geocode_bali_cache_from {g : Oracle} {cache : Cache} {raw : String}
    {tries : Nat} {k : String} {v : Coord}
    (h : cacheLookup (geocode_bali g cache raw tries).2 k = some v) :
    cacheLookup cache k = some v ∨
      (k = pyStrip raw ∧ pureLookup g tries raw = some v) := by
  cases hc : cacheLookup cache (pyStrip raw) with
  | some w =>
    rw [geocode_bali_hit hc] at h
    exact Or.inl h
  | none =>
    cases ht : pureLookup g tries raw with
    | some r =>
      rw [geocode_bali_miss_some hc ht] at h
      rcases cacheLookup_append_single_cases h with h' | ⟨hk, hv⟩
      · exact Or.inl h'
      · exact Or.inr ⟨hk, congrArg some hv.symm⟩
    | none =>
      rw [geocode_bali_miss_none hc ht] at h
      exact Or.inl h

/-! ### Helper lemmas: one step of the record loop -/

theorem processRow_invalid {g : Oracle} {tries : Nat} {st : LoopState} {r : RowR}
    (h : (strEmpty (rowName r) || strEmpty (rowAddr r)) = true) :
    processRow g tries st r =
      { st with cnt := { st.cnt with skipped := st.cnt.skipped + 1 } } := by
  unfold processRow
  simp only [h, if_pos]

theorem processRow_geo_none {g : Oracle} {tries : Nat} {st : LoopState} {r : RowR}
    {cache' : Cache}
    (hval : (strEmpty (rowName r) || strEmpty (rowAddr r)) = false)
    (hg : geocode_bali g st.cache (rowAddr r) tries = (none, cache')) :
    processRow g tries st r =
      { st with cache := cache',
                cnt := { st.cnt with failed := st.cnt.failed + 1 } } := by
  unfold processRow
  simp only [hval, Bool.false_eq_true, if_false, hg]

theorem processRow_geo_some_existing {g : Oracle} {tries : Nat} {st : LoopState}
    {r : RowR} {loc : Coord} {cache' : Cache} {ex : Venue}
    (hval : (strEmpty (rowName r) || strEmpty (rowAddr r)) = false)
    (hg : geocode_bali g st.cache (rowAddr r) tries = (some loc, cache'))
    (hf : findVenue st.db (rowName r) = some ex) :
    processRow g tries st r =
      { db := replaceFirst st.db (rowName r)
          (reconcileVenue ex (rowAddr r) loc (rowInstaName r)
            (resolve_website (some (rowLink r)))).1,
        cache := cache',
        cnt := if (reconcileVenue ex (rowAddr r) loc (rowInstaName r)
                    (resolve_website (some (rowLink r)))).2
               then { st.cnt with updated := st.cnt.updated + 1 }
               else { st.cnt with skipped := st.cnt.skipped + 1 } } := by
  unfold processRow
  simp only [hval, Bool.false_eq_true, if_false, hg, hf]

theorem processRow_geo_some_create {g : Oracle} {tries : Nat} {st : LoopState}
    {r : RowR} {loc : Coord} {cache' : Cache}
    (hval : (strEmpty (rowName r) || strEmpty (rowAddr r)) = false)
    (hg : geocode_bali g st.cache (rowAddr r) tries = (some loc, cache'))
    (hf : findVenue st.db (rowName r) = none) :
    processRow g tries st r =
      { db := st.db ++ [{ name := rowName r, address := rowAddr r, district := none,
                          lat := loc.lat, lon := loc.lon,
                          instagram := rowInstaName r,
                          website := resolve_website (some (rowLink r)),
                          notes := none }],
        cache := cache',
        cnt := { st.cnt with created := st.cnt.created + 1 } } := by
  unfold processRow
  simp only [hval, Bool.false_eq_true, if_false, hg, hf]

theorem processRow_cache_mono {g : Oracle} {tries : Nat} {st : LoopState}
    {r : RowR} {k : String} {v : Coord}
    (h : cacheLookup st.cache k = some v) :
    cacheLookup (processRow g tries st r).cache k = some v := by
  cases hval : (strEmpty (rowName r) || strEmpty (rowAddr r)) with
  | true => rw [processRow_invalid hval]; exact h
  | false =>
    cases hg : geocode_bali g st.cache (rowAddr r) tries with
    | mk res cache' =>
      have hc' : cacheLookup cache' k = some v := by
        have := @geocode_bali_cache_mono g st.cache (rowAddr r) tries k v h
        rw [hg] at this
        exact this
      cases res with
      | none => rw [processRow_geo_none hval hg]; exact hc'
      | some loc =>
        cases hf : findVenue st.db (rowName r) with
        | some ex => rw [processRow_geo_some_existing hval hg hf]; exact hc'
        | none => rw [processRow_geo_some_create hval hg hf]; exact hc'

theorem processRow_cache_from {g : Oracle} {tries : Nat} {st : LoopState}
    {r : RowR} {k : String} {v : Coord}
    (h : cacheLookup (processRow g tries st r).cache k = some v) :
    cacheLookup st.cache k = some v ∨ pureLookup g tries k = some v := by
  cases hval : (strEmpty (rowName r) || strEmpty (rowAddr r)) with
  | true => rw [processRow_invalid hval] at h; exact Or.inl h
  | false =>
    cases hg : geocode_bali g st.cache (rowAddr r) tries with
    | mk res cache' =>
      have hc' : cacheLookup cache' k = some v → cacheLookup st.cache k = some v ∨
          pureLookup g tries k = some v := by
        intro hx
        have h2 : cacheLookup (geocode_bali g st.cache (rowAddr r) tries).2 k = some v := by
          rw [hg]; exact hx
        rcases geocode_bali_cache_from h2 with h' | ⟨hk, hp⟩
        · exact Or.inl h'
        · right
          rw [hk, rowAddr_pyStrip]
          exact hp
      cases res with
      | none => rw [processRow_geo_none hval hg] at h; exact hc' h
      | some loc =>
        cases hf : findVenue st.db (rowName r) with
        | some ex => rw [processRow_geo_some_existing hval hg hf] at h; exact hc' h
        | none => rw [processRow_geo_some_create hval hg hf] at h; exact hc' h

/-! ### Helper lemmas: folding the whole row list -/

theorem foldRows_cache_mono {g : Oracle} {tries : Nat} :
    ∀ (rows : List RowR) (st : LoopState) (k : String) (v : Coord),
      cacheLookup st.cache k = some v →
      cacheLookup ((rows.foldl (processRow g tries) st)).cache k = some v := by
  intro rows
  induction rows with
  | nil => intro st k v h; exact h
  | cons r rest ih =>
    intro st k v h
    exact ih (processRow g tries st r) k v (processRow_cache_mono h)

theorem foldRows_cache_from {g : Oracle} {tries : Nat} :
    ∀ (rows : List RowR) (st : LoopState) (k : String) (v : Coord),
      cacheLookup ((rows.foldl (processRow g tries) st)).cache k = some v →
      cacheLookup st.cache k = some v ∨ pureLookup g tries k = some v := by
  intro rows
  induction rows with
  | nil => intro st k v h; exact Or.inl h
  | cons r rest ih =>
    intro st k v h
    rcases ih (processRow g tries st r) k v h with h' | h'
    · exact processRow_cache_from h'
    · exact Or.inr h'

/-! ### The idempotence argument

After a run, every processed row is "settled": either its address is
cached and the store holds a venue absorbing all its resolved fields, or
its address is uncacheable (the oracle fails on all its candidates) and
absent from the cache.  A second run then leaves the store and cache
untouched and only counts skips and failures. -/

theorem geocode_bali_none_inv {g : Oracle} {cache : Cache} {raw : String}
    {tries : Nat} {cache' : Cache}
    (h : geocode_bali g cache raw tries = (none, cache')) :
    cacheLookup cache (pyStrip raw) = none ∧ pureLookup g tries raw = none ∧
      cache' = cache := by
  cases hc : cacheLookup cache (pyStrip raw) with
  | some w => rw [geocode_bali_hit hc] at h; simp at h
  | none =>
    cases ht : pureLookup g tries raw with
    | some r => rw [geocode_bali_miss_some hc ht] at h; simp at h
    | none =>
      rw [geocode_bali_miss_none hc ht] at h
      exact ⟨rfl, rfl, (congrArg Prod.snd h).symm⟩

theorem geocode_bali_some_inv {g : Oracle} {cache : Cache} {raw : String}
    {tries : Nat} {loc : Coord} {cache' : Cache}
    (h : geocode_bali g cache raw tries = (some loc, cache')) :
    (cacheLookup cache (pyStrip raw) = some loc ∧ cache' = cache) ∨
    (cacheLookup cache (pyStrip raw) = none ∧ pureLookup g tries raw = some loc ∧
      cache' = cache ++ [(pyStrip raw, loc)]) := by
  cases hc : cacheLookup cache (pyStrip raw) with
  | some w =>
    rw [geocode_bali_hit hc] at h
    have h1 : some w = some loc := congrArg Prod.fst h
    have h2 : cache = cache' := congrArg Prod.snd h
    exact Or.inl ⟨h1, h2.symm⟩
  | none =>
    cases ht : pureLookup g tries raw with
    | some r =>
      rw [geocode_bali_miss_some hc ht] at h
      have h1 : some r = some loc := congrArg Prod.fst h
      have h2 : cache ++ [(pyStrip raw, r)] = cache' := congrArg Prod.snd h
      have hrl : r = loc := Option.some.inj h1
      refine Or.inr ⟨rfl, h1, ?_⟩
      rw [← h2, hrl]
    | none =>
      rw [geocode_bali_miss_none hc ht] at h
      exact Option.noConfusion (congrArg Prod.fst h)

/-- The website value the reconciler resolves for a row. -/
def rowWebsite (r : RowR) : Option String := resolve_website (some (rowLink r))

/-- The store holds, under the row's venue name, a record absorbing all
of the row's resolved fields (for the coordinate `v`). -/
def MatchedVenue (db : List Venue) (r : RowR) (v : Coord) : Prop :=
  ∃ ex, findVenue db (rowName r) = some ex ∧
    ex.address = rowAddr r ∧ ex.lat = v.lat ∧ ex.lon = v.lon ∧
    ex.instagram = rowInstaName r ∧
    (optTruthy (rowWebsite r) = true → ex.website = rowWebsite r)

/-- A row is settled with respect to a store and cache state. -/
def SettledIn (g : Oracle) (tries : Nat) (db : List Venue) (cache : Cache)
    (r : RowR) : Prop :=
  validRow r = true →
    ((∃ v, cacheLookup cache (rowAddr r) = some v ∧ MatchedVenue db r v) ∨
     (pureLookup g tries (rowAddr r) = none ∧
       cacheLookup cache (rowAddr r) = none))

theorem validRow_iff {r : RowR} :
    validRow r = true ↔ (strEmpty (rowName r) || strEmpty (rowAddr r)) = false := by
  unfold validRow
  cases strEmpty (rowName r) <;> cases strEmpty (rowAddr r) <;> simp

theorem findVenue_name {db : List Venue} {n : String} {ex : Venue}
    (h : findVenue db n = some ex) : (ex.name == n) = true := by
  induction db with
  | nil => simp [findVenue] at h
  | cons e rest ih =>
    cases he : (e.name == n) with
    | true =>
      simp only [findVenue, List.find?, he] at h
      injection h with h2
      rw [← h2]
      exact he
    | false =>
      simp only [findVenue, List.find?, he] at h
      exact ih h

/-- A row is settled in the state produced by its own processing step. -/
theorem processRow_settles (g : Oracle) (tries : Nat) (st : LoopState) (r : RowR) :
    SettledIn g tries (processRow g tries st r).db (processRow g tries st r).cache r := by
  intro hvalid
  have hval := validRow_iff.mp hvalid
  cases hg : geocode_bali g st.cache (rowAddr r) tries with
  | mk res cache' =>
  cases res with
  | none =>
    obtain ⟨hc, hp, hcc⟩ := geocode_bali_none_inv hg
    rw [rowAddr_pyStrip] at hc
    rw [processRow_geo_none hval hg]
    exact Or.inr ⟨hp, by rw [hcc]; exact hc⟩
  | some loc =>
    have hcache' : cacheLookup cache' (rowAddr r) = some loc := by
      rcases geocode_bali_some_inv hg with ⟨hc, hcc⟩ | ⟨hc, -, hcc⟩
      · rw [rowAddr_pyStrip] at hc
        rw [hcc]
        exact hc
      · rw [rowAddr_pyStrip] at hc
        rw [hcc, rowAddr_pyStrip]
        exact cacheLookup_append_single_self hc
    cases hf : findVenue st.db (rowName r) with
    | some ex =>
      rw [processRow_geo_some_existing hval hg hf]
      obtain ⟨hn, ha, hla, hlo, hin, hw, -⟩ :=
        reconcileVenue_fields ex (rowAddr r) loc (rowInstaName r)
          (resolve_website (some (rowLink r)))
      refine Or.inl ⟨loc, hcache', ?_⟩
      refine ⟨_, findVenue_replaceFirst_self hf ?_, ha, hla, hlo, hin, hw⟩
      rw [hn]
      exact findVenue_name hf
    | none =>
      rw [processRow_geo_some_create hval hg hf]
      refine Or.inl ⟨loc, hcache', ?_⟩
      refine ⟨_, findVenue_append_single_of_none hf (by simp), ?_⟩
      refine ⟨rfl, rfl, rfl, rfl, fun _ => rfl⟩

/-- Processing a different row (or an invalid one) keeps a settled row
settled. -/
theorem processRow_preserves_settled {g : Oracle} {tries : Nat}
    {st : LoopState} {r' r : RowR}
    (hs : SettledIn g tries st.db st.cache r)
    (hne : validRow r = true → validRow r' = true → rowName r' ≠ rowName r) :
    SettledIn g tries (processRow g tries st r').db
      (processRow g tries st r').cache r := by
  intro hvalid
  rcases hs hvalid with ⟨v, hcv, ex, hex, hflds⟩ | ⟨hp, hnone⟩
  · refine Or.inl ⟨v, processRow_cache_mono hcv, ?_⟩
    cases hval' : (strEmpty (rowName r') || strEmpty (rowAddr r')) with
    | true =>
      rw [processRow_invalid hval']
      exact ⟨ex, hex, hflds⟩
    | false =>
      have hnee : rowName r' ≠ rowName r :=
        hne hvalid (validRow_iff.mpr hval')
      have hneb : (rowName r' == rowName r) = false := by
        simp [hnee]
      cases hg : geocode_bali g st.cache (rowAddr r') tries with
      | mk res cache' =>
      cases res with
      | none =>
        rw [processRow_geo_none hval' hg]
        exact ⟨ex, hex, hflds⟩
      | some loc =>
        cases hf : findVenue st.db (rowName r') with
        | some ex' =>
          rw [processRow_geo_some_existing hval' hg hf]
          refine ⟨ex, ?_, hflds⟩
          obtain ⟨hn, -⟩ :=
            reconcileVenue_fields ex' (rowAddr r') loc (rowInstaName r')
              (resolve_website (some (rowLink r')))
          have hvn : ((reconcileVenue ex' (rowAddr r') loc (rowInstaName r')
              (resolve_website (some (rowLink r')))).1.name == rowName r) = false := by
            rw [hn]
            have := findVenue_name hf
            have hexn : ex'.name = rowName r' := beq_iff_eq.mp this
            rw [hexn]
            exact hneb
          rw [findVenue_replaceFirst_ne hvn hneb]
          exact hex
        | none =>
          rw [processRow_geo_some_create hval' hg hf]
          exact ⟨ex, findVenue_append_of_some hex, hflds⟩
  · refine Or.inr ⟨hp, ?_⟩
    cases hl : cacheLookup (processRow g tries st r').cache (rowAddr r) with
    | none => rfl
    | some v =>
      rcases processRow_cache_from hl with h' | h'
      · rw [hnone] at h'; cases h'
      · rw [hp] at h'; cases h'

theorem foldRows_preserves_settled {g : Oracle} {tries : Nat} {r : RowR} :
    ∀ (rest : List RowR) (st : LoopState),
      SettledIn g tries st.db st.cache r →
      (∀ r' ∈ rest, validRow r = true → validRow r' = true →
        rowName r' ≠ rowName r) →
      SettledIn g tries ((rest.foldl (processRow g tries) st)).db
        ((rest.foldl (processRow g tries) st)).cache r := by
  intro rest
  induction rest with
  | nil => intro st hs _; exact hs
  | cons r' rest' ih =>
    intro st hs hne
    rw [List.foldl_cons]
    refine ih (processRow g tries st r')
      (processRow_preserves_settled hs (hne r' (by simp))) ?_
    intro r'' hr'' h1 h2
    exact hne r'' (by simp [hr'']) h1 h2

/-- After a whole run over rows with pairwise-distinct (valid) venue
names, every row is settled in the final state. -/
theorem foldRows_settles_all {g : Oracle} {tries : Nat} :
    ∀ (rows : List RowR) (st : LoopState),
      ((rows.filter validRow).map rowName).Nodup →
      ∀ r ∈ rows,
        SettledIn g tries ((rows.foldl (processRow g tries) st)).db
          ((rows.foldl (processRow g tries) st)).cache r := by
  intro rows
  induction rows with
  | nil => intro st _ r hr; cases hr
  | cons r₀ rest ih =>
    intro st hnd r hr
    have hnd' : ((rest.filter validRow).map rowName).Nodup := by
      cases hval : validRow r₀ with
      | true =>
        rw [List.filter_cons, if_pos hval, List.map_cons, List.nodup_cons] at hnd
        exact hnd.2
      | false =>
        rw [List.filter_cons, if_neg (by simp [hval])] at hnd
        exact hnd
    have hname : validRow r₀ = true →
        ∀ r' ∈ rest, validRow r' = true → rowName r' ≠ rowName r₀ := by
      intro hv r' hr' hv' heq
      rw [List.filter_cons, if_pos hv, List.map_cons, List.nodup_cons] at hnd
      exact hnd.1 (by
        rw [← heq]
        exact List.mem_map_of_mem rowName (List.mem_filter.mpr ⟨hr', hv'⟩))
    rw [List.foldl_cons]
    rcases List.mem_cons.mp hr with rfl | hmem
    · exact foldRows_preserves_settled rest (processRow g tries st r)
        (processRow_settles g tries st r)
        (fun r' hr' h1 h2 => hname h1 r' hr' h2)
    · exact ih (processRow g tries st r₀) hnd' r hmem

theorem processRow_cache_val {g : Oracle} {tries : Nat} {st : LoopState} {r : RowR}
    {res : Option Coord} {cache' : Cache}
    (hval : (strEmpty (rowName r) || strEmpty (rowAddr r)) = false)
    (hg : geocode_bali g st.cache (rowAddr r) tries = (res, cache')) :
    (processRow g tries st r).cache = cache' := by
  cases res with
  | none => rw [processRow_geo_none hval hg]
  | some loc =>
    cases hf : findVenue st.db (rowName r) with
    | some ex => rw [processRow_geo_some_existing hval hg hf]
    | none => rw [processRow_geo_some_create hval hg hf]

/-- On a second run, a settled valid row whose address is cached is
skipped and changes nothing. -/
theorem processRow_second_skip {g : Oracle} {tries : Nat} {db₁ : List Venue}
    {cache₁ : Cache} {r : RowR} {c₂ : Counters} {v : Coord}
    (hvalid : validRow r = true)
    (hv : cacheLookup cache₁ (rowAddr r) = some v)
    (hm : MatchedVenue db₁ r v) :
    processRow g tries { db := db₁, cache := cache₁, cnt := c₂ } r
      = { db := db₁, cache := cache₁,
          cnt := { c₂ with skipped := c₂.skipped + 1 } } := by
  have hval := validRow_iff.mp hvalid
  obtain ⟨ex, hex, ha, hla, hlo, hin, hw⟩ := hm
  have hv' : cacheLookup cache₁ (pyStrip (rowAddr r)) = some v := by
    rw [rowAddr_pyStrip]; exact hv
  have hg : geocode_bali g cache₁ (rowAddr r) tries = (some v, cache₁) :=
    geocode_bali_hit hv'
  rw [processRow_geo_some_existing hval hg hex]
  have hrec : reconcileVenue ex (rowAddr r) v (rowInstaName r)
      (resolve_website (some (rowLink r))) = (ex, false) :=
    reconcileVenue_noop ha hla hlo hin hw
  rw [hrec]
  simp [replaceFirst_id hex]

/-- On a second run, a settled valid row whose address is uncacheable
fails again and changes nothing. -/
theorem processRow_second_failed {g : Oracle} {tries : Nat} {db₁ : List Venue}
    {cache₁ : Cache} {r : RowR} {c₂ : Counters}
    (hvalid : validRow r = true)
    (hp : pureLookup g tries (rowAddr r) = none)
    (hn : cacheLookup cache₁ (rowAddr r) = none) :
    processRow g tries { db := db₁, cache := cache₁, cnt := c₂ } r
      = { db := db₁, cache := cache₁,
          cnt := { c₂ with failed := c₂.failed + 1 } } := by
  have hval := validRow_iff.mp hvalid
  have hn' : cacheLookup cache₁ (pyStrip (rowAddr r)) = none := by
    rw [rowAddr_pyStrip]; exact hn
  have hg : geocode_bali g cache₁ (rowAddr r) tries = (none, cache₁) :=
    geocode_bali_miss_none hn' hp
  rw [processRow_geo_none hval hg]

/-- A valid row whose geocoding succeeds bumps exactly one of the
created/updated/skipped counters. -/
theorem processRow_cnt_of_geo_some {g : Oracle} {tries : Nat} {st : LoopState}
    {r : RowR} {loc : Coord} {cache' : Cache}
    (hval : (strEmpty (rowName r) || strEmpty (rowAddr r)) = false)
    (hg : geocode_bali g st.cache (rowAddr r) tries = (some loc, cache')) :
    (processRow g tries st r).cnt.created + (processRow g tries st r).cnt.updated
        + (processRow g tries st r).cnt.skipped
      = st.cnt.created + st.cnt.updated + st.cnt.skipped + 1 ∧
    (processRow g tries st r).cnt.failed = st.cnt.failed := by
  cases hf : findVenue st.db (rowName r) with
  | some ex =>
    rw [processRow_geo_some_existing hval hg hf]
    cases hrc : (reconcileVenue ex (rowAddr r) loc (rowInstaName r)
        (resolve_website (some (rowLink r)))).2 with
    | true => simp [hrc]; omega
    | false => simp [hrc]; omega
  | none =>
    rw [processRow_geo_some_create hval hg hf]
    simp
    omega

/-- Core of the idempotence theorem: re-running the row loop from the
final state of a run in which every row ended up settled changes neither
store nor cache, creates and updates nothing, and turns every previous
created/updated/skipped outcome into a skip and every failure into a
failure. -/
theorem secondRun_noop {g : Oracle} {tries : Nat} :
    ∀ (rows : List RowR) (st : LoopState) (c₂ : Counters),
      (∀ r ∈ rows,
        SettledIn g tries ((rows.foldl (processRow g tries) st)).db
          ((rows.foldl (processRow g tries) st)).cache r) →
      ∀ fin t, fin = rows.foldl (processRow g tries) st →
        t = rows.foldl (processRow g tries)
              { db := fin.db, cache := fin.cache, cnt := c₂ } →
        t.db = fin.db ∧ t.cache = fin.cache ∧
        t.cnt.created = c₂.created ∧ t.cnt.updated = c₂.updated ∧
        ∃ df ds,
          fin.cnt.failed = st.cnt.failed + df ∧
          t.cnt.failed = c₂.failed + df ∧
          fin.cnt.created + fin.cnt.updated + fin.cnt.skipped
            = st.cnt.created + st.cnt.updated + st.cnt.skipped + ds ∧
          t.cnt.skipped = c₂.skipped + ds := by
  intro rows
  induction rows with
  | nil =>
    intro st c₂ _ fin t hfin ht
    subst ht
    subst hfin
    refine ⟨?_, ?_, ?_, ?_, 0, 0, ?_, ?_, ?_, ?_⟩ <;> simp [List.foldl_nil]
  | cons r rest ih =>
    intro st c₂ hset fin t hfin ht
    subst ht
    subst hfin
    simp only [List.foldl_cons] at hset ⊢
    have hsettle_tail : ∀ r' ∈ rest,
        SettledIn g tries
          ((rest.foldl (processRow g tries) (processRow g tries st r))).db
          ((rest.foldl (processRow g tries) (processRow g tries st r))).cache r' :=
      fun r' hr' => hset r' (List.mem_cons_of_mem r hr')
    have hsr := hset r (List.mem_cons_self r rest)
    cases hval : (strEmpty (rowName r) || strEmpty (rowAddr r)) with
    | true =>
      -- the row is invalid in both runs: a skip on each side
      have hstep2 : processRow g tries
          { db := ((rest.foldl (processRow g tries) (processRow g tries st r))).db,
            cache := ((rest.foldl (processRow g tries) (processRow g tries st r))).cache,
            cnt := c₂ } r
          = { db := ((rest.foldl (processRow g tries) (processRow g tries st r))).db,
              cache := ((rest.foldl (processRow g tries) (processRow g tries st r))).cache,
              cnt := { c₂ with skipped := c₂.skipped + 1 } } :=
        processRow_invalid hval
      rw [hstep2]
      obtain ⟨h1, h2, h3, h4, df, ds, hd1, hd2, hd3, hd4⟩ :=
        ih (processRow g tries st r) { c₂ with skipped := c₂.skipped + 1 }
          hsettle_tail _ _ rfl rfl
      have hpr := @processRow_invalid g tries st r hval
      have hcf : (processRow g tries st r).cnt.failed = st.cnt.failed := by
        rw [hpr]
      have hcs : (processRow g tries st r).cnt.created
            + (processRow g tries st r).cnt.updated
            + (processRow g tries st r).cnt.skipped
          = st.cnt.created + st.cnt.updated + st.cnt.skipped + 1 := by
        rw [hpr]
        dsimp only
        omega
      dsimp only at hd1 hd2 hd3 hd4
      refine ⟨h1, h2, h3, h4, df, ds + 1, ?_, ?_, ?_, ?_⟩ <;> omega
    | false =>
      have hvr : validRow r = true := validRow_iff.mpr hval
      cases hg : geocode_bali g st.cache (rowAddr r) tries with
      | mk res cache' =>
      cases res with
      | none =>
        -- geocoding failed on the first run: it fails again on the second
        obtain ⟨hcn, hpn, hcc⟩ := geocode_bali_none_inv hg
        rw [rowAddr_pyStrip] at hcn
        have hcache1 : (processRow g tries st r).cache = st.cache := by
          rw [processRow_cache_val hval hg, hcc]
        rcases hsr hvr with ⟨v, hvfin, -⟩ | ⟨hp2, hn2⟩
        · exfalso
          rcases foldRows_cache_from rest (processRow g tries st r)
              (rowAddr r) v hvfin with h' | h'
          · rw [hcache1, hcn] at h'
            cases h'
          · rw [hpn] at h'
            cases h'
        · have hstep2 := @processRow_second_failed g tries
            ((rest.foldl (processRow g tries) (processRow g tries st r))).db
            ((rest.foldl (processRow g tries) (processRow g tries st r))).cache
            r c₂ hvr hp2 hn2
          rw [hstep2]
          obtain ⟨h1, h2, h3, h4, df, ds, hd1, hd2, hd3, hd4⟩ :=
            ih (processRow g tries st r) { c₂ with failed := c₂.failed + 1 }
              hsettle_tail _ _ rfl rfl
          have hpr := processRow_geo_none hval hg
          have hcf : (processRow g tries st r).cnt.failed = st.cnt.failed + 1 := by
            rw [hpr]
          have hcs : (processRow g tries st r).cnt.created
                + (processRow g tries st r).cnt.updated
                + (processRow g tries st r).cnt.skipped
              = st.cnt.created + st.cnt.updated + st.cnt.skipped := by
            rw [hpr]
          dsimp only at hd1 hd2 hd3 hd4
          refine ⟨h1, h2, h3, h4, df + 1, ds, ?_, ?_, ?_, ?_⟩ <;> omega
      | some loc =>
        -- geocoding succeeded on the first run: the address is cached in
        -- the final state, and the second run skips the row
        have hcache1 : (processRow g tries st r).cache = cache' :=
          processRow_cache_val hval hg
        have hfin_hit : cacheLookup
            ((rest.foldl (processRow g tries) (processRow g tries st r))).cache
            (rowAddr r) = some loc := by
          apply foldRows_cache_mono
          rw [hcache1]
          rcases geocode_bali_some_inv hg with ⟨hc, hcc⟩ | ⟨hc, -, hcc⟩
          · rw [rowAddr_pyStrip] at hc
            rw [hcc]
            exact hc
          · rw [rowAddr_pyStrip] at hc
            rw [hcc, rowAddr_pyStrip]
            exact cacheLookup_append_single_self hc
        rcases hsr hvr with ⟨v, hvfin, hm⟩ | ⟨-, hn2⟩
        · have hstep2 := @processRow_second_skip g tries
            ((rest.foldl (processRow g tries) (processRow g tries st r))).db
            ((rest.foldl (processRow g tries) (processRow g tries st r))).cache
            r c₂ v hvr hvfin hm
          rw [hstep2]
          obtain ⟨h1, h2, h3, h4, df, ds, hd1, hd2, hd3, hd4⟩ :=
            ih (processRow g tries st r) { c₂ with skipped := c₂.skipped + 1 }
              hsettle_tail _ _ rfl rfl
          obtain ⟨hsum, hfail⟩ := processRow_cnt_of_geo_some hval hg
          dsimp only at hd1 hd2 hd3 hd4
          refine ⟨h1, h2, h3, h4, df, ds + 1, ?_, ?_, ?_, ?_⟩ <;> omega
        · exfalso
          rw [hfin_hit] at hn2
          cases hn2

/-! ### Claim C1 — idempotence of the venue import -/

/-- A fully permissive oracle used for the concrete counterexample and
witnesses: every lookup attempt resolves to the same coordinate. -/
def cexOracle : Oracle := fun _ _ => some { lat := 0, lon := 0 }

def cexRow1 : RowR :=
  { venue := some "V", addressNotes := some "A1", instagramName := none,
    instgramLinkSp := none, instgramLink := none }

def cexRow2 : RowR :=
  { venue := some "V", addressNotes := some "A2", instagramName := none,
    instgramLinkSp := none, instgramLink := none }

/-- C1, counterexample: the claim fails as stated.  A CSV with two rows
sharing the venue name "V" but different addresses is imported into an
empty store; a second run over the same input, the store it produced and
the cache it flushed reports two Updated records (each row keeps
flipping the shared venue's address back), not zero. -/
theorem c1_counterexample :
    (runImport cexOracle 2 false
        (runImport cexOracle 2 false [] [] [cexRow1, cexRow2]).persisted
        (runImport cexOracle 2 false [] [] [cexRow1, cexRow2]).cacheOut
        [cexRow1, cexRow2]).counters.updated = 2 := by decide

/-- C1, amended: for every CSV input whose valid rows carry pairwise
distinct venue names (and a store without duplicate names, as
`one_or_none` requires), a second run of the importer over the same
input, against the store and geocode cache produced by the first run,
reports zero Created and zero Updated; every row counted
Created/Updated/Skipped by the first run is counted Skipped, failures
repeat, and neither the persisted store nor the flushed cache changes. -/
theorem c1_idempotent_of_unique_names (g : Oracle) (tries : Nat)
    (db₀ : List Venue) (cache₀ : Cache) (rows : List RowR)
    (hdb : (db₀.map Venue.name).Nodup)
    (hrows : ((rows.filter validRow).map rowName).Nodup) :
    ∀ r₁ r₂, r₁ = runImport g tries false db₀ cache₀ rows →
      r₂ = runImport g tries false r₁.persisted r₁.cacheOut rows →
      r₂.counters.created = 0 ∧ r₂.counters.updated = 0 ∧
      r₂.counters.skipped
        = r₁.counters.created + r₁.counters.updated + r₁.counters.skipped ∧
      r₂.counters.failed = r₁.counters.failed ∧
      r₂.persisted = r₁.persisted ∧ r₂.cacheOut = r₁.cacheOut := by
  intro r₁ r₂ h₁ h₂
  subst h₂
  subst h₁
  have hsettled :=
    @foldRows_settles_all g tries rows (initState db₀ cache₀)
      hrows
  obtain ⟨h1, h2, h3, h4, df, ds, hd1, hd2, hd3, hd4⟩ :=
    secondRun_noop rows (initState db₀ cache₀)
      { created := 0, updated := 0, skipped := 0, failed := 0 }
      hsettled _ _ rfl rfl
  have hrw : runImport g tries false db₀ cache₀ rows
      = { counters := (rows.foldl (processRow g tries)
            { db := db₀, cache := cache₀,
              cnt := { created := 0, updated := 0, skipped := 0, failed := 0 } }).cnt,
          persisted := (rows.foldl (processRow g tries)
            { db := db₀, cache := cache₀,
              cnt := { created := 0, updated := 0, skipped := 0, failed := 0 } }).db,
          cacheOut := (rows.foldl (processRow g tries)
            { db := db₀, cache := cache₀,
              cnt := { created := 0, updated := 0, skipped := 0, failed := 0 } }).cache } := by
    simp [runImport, initState]
  have hrw2 : runImport g tries false
        (runImport g tries false db₀ cache₀ rows).persisted
        (runImport g tries false db₀ cache₀ rows).cacheOut rows
      = { counters := (rows.foldl (processRow g tries)
            { db := (rows.foldl (processRow g tries)
                { db := db₀, cache := cache₀,
                  cnt := { created := 0, updated := 0, skipped := 0, failed := 0 } }).db,
              cache := (rows.foldl (processRow g tries)
                { db := db₀, cache := cache₀,
                  cnt := { created := 0, updated := 0, skipped := 0, failed := 0 } }).cache,
              cnt := { created := 0, updated := 0, skipped := 0, failed := 0 } }).cnt,
          persisted := (rows.foldl (processRow g tries)
            { db := (rows.foldl (processRow g tries)
                { db := db₀, cache := cache₀,
                  cnt := { created := 0, updated := 0, skipped := 0, failed := 0 } }).db,
              cache := (rows.foldl (processRow g tries)
                { db := db₀, cache := cache₀,
                  cnt := { created := 0, updated := 0, skipped := 0, failed := 0 } }).cache,
              cnt := { created := 0, updated := 0, skipped := 0, failed := 0 } }).db,
          cacheOut := (rows.foldl (processRow g tries)
            { db := (rows.foldl (processRow g tries)
                { db := db₀, cache := cache₀,
                  cnt := { created := 0, updated := 0, skipped := 0, failed := 0 } }).db,
              cache := (rows.foldl (processRow g tries)
                { db := db₀, cache := cache₀,
                  cnt := { created := 0, updated := 0, skipped := 0, failed := 0 } }).cache,
              cnt := { created := 0, updated := 0, skipped := 0, failed := 0 } }).cache } := by
    simp [runImport, initState]
  dsimp only [initState] at h1 h2 h3 h4 hd1 hd2 hd3 hd4
  rw [hrw2, hrw]
  dsimp only
  refine ⟨h3, h4, ?_, ?_, h1, h2⟩
  · omega
  · omega

/-- C1, witness for the amended theorem: a one-row CSV against an empty
store and cache with a distinct name satisfies the hypotheses, and the
conclusion holds at that input. -/
theorem c1_idempotent_witness :
    (((([] : List Venue)).map Venue.name).Nodup ∧
      ((([cexRow1].filter validRow)).map rowName).Nodup) ∧
    ((runImport cexOracle 2 false
        (runImport cexOracle 2 false [] [] [cexRow1]).persisted
        (runImport cexOracle 2 false [] [] [cexRow1]).cacheOut
        [cexRow1]).counters.created = 0 ∧
     (runImport cexOracle 2 false
        (runImport cexOracle 2 false [] [] [cexRow1]).persisted
        (runImport cexOracle 2 false [] [] [cexRow1]).cacheOut
        [cexRow1]).counters.updated = 0 ∧
     (runImport cexOracle 2 false
        (runImport cexOracle 2 false [] [] [cexRow1]).persisted
        (runImport cexOracle 2 false [] [] [cexRow1]).cacheOut
        [cexRow1]).counters.skipped
       = (runImport cexOracle 2 false [] [] [cexRow1]).counters.created
         + (runImport cexOracle 2 false [] [] [cexRow1]).counters.updated
         + (runImport cexOracle 2 false [] [] [cexRow1]).counters.skipped ∧
     (runImport cexOracle 2 false
        (runImport cexOracle 2 false [] [] [cexRow1]).persisted
        (runImport cexOracle 2 false [] [] [cexRow1]).cacheOut
        [cexRow1]).counters.failed
       = (runImport cexOracle 2 false [] [] [cexRow1]).counters.failed ∧
     (runImport cexOracle 2 false
        (runImport cexOracle 2 false [] [] [cexRow1]).persisted
        (runImport cexOracle 2 false [] [] [cexRow1]).cacheOut
        [cexRow1]).persisted = (runImport cexOracle 2 false [] [] [cexRow1]).persisted ∧
     (runImport cexOracle 2 false
        (runImport cexOracle 2 false [] [] [cexRow1]).persisted
        (runImport cexOracle 2 false [] [] [cexRow1]).cacheOut
        [cexRow1]).cacheOut = (runImport cexOracle 2 false [] [] [cexRow1]).cacheOut) :=
  ⟨⟨by decide, by decide⟩,
    c1_idempotent_of_unique_names cexOracle 2 [] [] [cexRow1]
      (by decide) (by decide) _ _ rfl rfl⟩

/-! ### Claim C8 — dry-run equivalence -/

/-- C8: for every CSV input, cache state and initial store, a dry run
and a real run share the per-record decision loop, so they report
identical counters and flush the identical cache; the dry run's
persisted store is the initial one (rollback), while the real run
persists the final store of the loop (commit). -/
theorem c8_dry_run_equivalence (g : Oracle) (tries : Nat) (db₀ : List Venue)
    (cache₀ : Cache) (rows : List RowR) :
    (runImport g tries true db₀ cache₀ rows).counters
      = (runImport g tries false db₀ cache₀ rows).counters ∧
    (runImport g tries true db₀ cache₀ rows).cacheOut
      = (runImport g tries false db₀ cache₀ rows).cacheOut ∧
    (runImport g tries true db₀ cache₀ rows).persisted = db₀ ∧
    (runImport g tries false db₀ cache₀ rows).persisted
      = (rows.foldl (processRow g tries) (initState db₀ cache₀)).db := by
  refine ⟨?_, ?_, ?_, ?_⟩ <;> simp [runImport]

/-- C8, witness at a concrete input. -/
theorem c8_dry_run_equivalence_witness :
    (runImport cexOracle 2 true [] [] [cexRow1, cexRow2]).counters
      = (runImport cexOracle 2 false [] [] [cexRow1, cexRow2]).counters ∧
    (runImport cexOracle 2 true [] [] [cexRow1, cexRow2]).cacheOut
      = (runImport cexOracle 2 false [] [] [cexRow1, cexRow2]).cacheOut ∧
    (runImport cexOracle 2 true [] [] [cexRow1, cexRow2]).persisted = [] ∧
    (runImport cexOracle 2 false [] [] [cexRow1, cexRow2]).persisted
      = ([cexRow1, cexRow2].foldl (processRow cexOracle 2) (initState [] [])).db :=
  c8_dry_run_equivalence cexOracle 2 [] [] [cexRow1, cexRow2]

/-! ### Claim C4 — candidate generation -/

theorem splitComma_ne_nil : ∀ l : List Char, splitComma l ≠ [] := by
  intro l
  cases l with
  | nil => simp [splitComma]
  | cons c rest =>
    unfold splitComma
    by_cases hc : c = ','
    · simp [hc]
    · rw [if_neg hc]
      cases hs : splitComma rest with
      | nil => simp
      | cons s ss => simp

theorem splitComma_seg {c : Char} :
    ∀ {l : List Char}, c ∈ l → c ≠ ',' → ∃ seg ∈ splitComma l, c ∈ seg := by
  intro l
  induction l with
  | nil => intro hc; cases hc
  | cons a rest ih =>
    intro hc hnc
    rcases List.mem_cons.mp hc with rfl | hmem
    · unfold splitComma
      rw [if_neg hnc]
      cases hs : splitComma rest with
      | nil => exact ⟨[c], by simp, by simp⟩
      | cons s ss => exact ⟨c :: s, by simp, by simp⟩
    · obtain ⟨seg, hseg, hcseg⟩ := ih hmem hnc
      unfold splitComma
      by_cases ha : a = ','
      · rw [if_pos ha]
        exact ⟨seg, List.mem_cons_of_mem _ hseg, hcseg⟩
      · rw [if_neg ha]
        cases hs : splitComma rest with
        | nil => exact absurd hs (splitComma_ne_nil rest)
        | cons s ss =>
          rw [hs] at hseg
          rcases List.mem_cons.mp hseg with rfl | h2
          · exact ⟨a :: seg, List.mem_cons_self _ _, List.mem_cons_of_mem _ hcseg⟩
          · exact ⟨seg, List.mem_cons_of_mem _ h2, hcseg⟩

theorem mem_dropWhile_of_not {p : Char → Bool} {c : Char} :
    ∀ {l : List Char}, c ∈ l → p c = false → c ∈ l.dropWhile p := by
  intro l
  induction l with
  | nil => intro h; cases h
  | cons a rest ih =>
    intro hc hp
    cases ha : p a with
    | true =>
      rw [List.dropWhile, ha]
      rcases List.mem_cons.mp hc with rfl | hmem
      · rw [ha] at hp; cases hp
      · exact ih hmem hp
    | false =>
      rw [List.dropWhile, ha]
      exact hc

theorem mem_trimChars {l : List Char} {c : Char} (hc : c ∈ l)
    (hw : isWS c = false) : c ∈ trimChars l := by
  unfold trimChars stripSet
  exact List.mem_reverse.mpr
    (mem_dropWhile_of_not (List.mem_reverse.mpr (mem_dropWhile_of_not hc hw)) hw)

theorem addrPartsS_ne_nil {s : String} {c : Char}
    (hc : c ∈ s.data) (hnc : c ≠ ',') (hw : isWS c = false) :
    addrPartsS s ≠ [] := by
  obtain ⟨seg, hseg, hcseg⟩ := splitComma_seg hc hnc
  intro hnil
  unfold addrPartsS at hnil
  rw [List.filter_eq_nil_iff] at hnil
  have hmem := List.mem_map_of_mem (fun l => String.mk (trimChars l)) hseg
  have hno := hnil _ hmem
  apply hno
  have hne : trimChars seg ≠ [] := List.ne_nil_of_mem (mem_trimChars hcseg hw)
  simpa [strEmpty] using hne

theorem chSub_mem {p : Char} {ps : List Char} :
    ∀ {l : List Char}, chSub (p :: ps) l = true → p ∈ l := by
  intro l
  induction l with
  | nil => intro h; simp [chSub, chPre] at h
  | cons c cs ih =>
    intro h
    unfold chSub at h
    cases hor : chPre (p :: ps) (c :: cs) with
    | true =>
      unfold chPre at hor
      have hpc := (Bool.and_eq_true _ _ |>.mp hor).1
      rw [beq_iff_eq.mp hpc]
      exact List.mem_cons_self _ _
    | false =>
      rw [hor, Bool.false_or] at h
      exact List.mem_cons_of_mem _ (ih h)

theorem toLower_b_not_sep {c : Char} (h : c.toLower = 'b') :
    c ≠ ',' ∧ isWS c = false := by
  constructor
  · intro hc
    rw [hc] at h
    exact absurd h (by decide)
  · cases hws : isWS c with
    | false => rfl
    | true =>
      exfalso
      have hcases : ((c = ' ' ∨ c = '\t') ∨ c = '\x0d') ∨ c = '\n' := by
        simpa [isWS, Char.isWhitespace] using hws
      rcases hcases with ⟨⟨rfl | rfl⟩ | rfl⟩ | rfl <;> exact absurd h (by decide)

/-- Every normalized address has at least one nonempty comma-separated
segment: either the region/country suffix was appended, or the string
already contained the region name, whose letters survive splitting and
trimming. -/
theorem addrPartsS_ensure_ne_nil (s : String) :
    addrPartsS (ensureBaliIndonesia s) ≠ [] := by
  unfold ensureBaliIndonesia
  by_cases hb : lowerContains s ['b', 'a', 'l', 'i'] = true
  · rw [if_pos hb]
    by_cases hi : lowerContains s "indonesia".data = true
    · rw [if_pos hi]
      unfold lowerContains at hb
      obtain ⟨c, hc, htl⟩ := List.mem_map.mp (chSub_mem hb)
      obtain ⟨hnc, hw⟩ := toLower_b_not_sep htl
      exact addrPartsS_ne_nil hc hnc hw
    · rw [if_neg hi]
      apply addrPartsS_ne_nil (c := 'I') ?_ (by decide) (by decide)
      rw [String.data_append]
      exact List.mem_append_right _ (by decide)
  · rw [if_neg hb]
    by_cases hi : lowerContains (s ++ ", Bali") "indonesia".data = true
    · rw [if_pos hi]
      apply addrPartsS_ne_nil (c := 'B') ?_ (by decide) (by decide)
      rw [String.data_append]
      exact List.mem_append_right _ (by decide)
    · rw [if_neg hi]
      apply addrPartsS_ne_nil (c := 'I') ?_ (by decide) (by decide)
      rw [String.data_append]
      exact List.mem_append_right _ (by decide)

theorem addrPartsS_normalize_ne_nil (raw : String) :
    addrPartsS (normalize_address raw) ≠ [] := by
  unfold normalize_address
  exact addrPartsS_ensure_ne_nil _

/-- Spec-side (C4) description of the candidate list: the normalized
address; then, exactly when at least two segments exist and the join of
the first two differs case-insensitively from it, that join; then,
exactly when case-insensitively absent so far, the first segment with
the literal ", Bali, Indonesia" suffix. -/
def candidatesSpecC4 (norm p : String) (parts : List String) : List String :=
  let c1 := String.intercalate ", " (parts.take 2)
  let front := if parts.length ≥ 2 ∧ lowerStr c1 ≠ lowerStr norm
               then [norm, c1] else [norm]
  let c2 := p ++ ", Bali, Indonesia"
  if (front.map lowerStr).contains (lowerStr c2) then front else front ++ [c2]

theorem if_and_eq {A B : Prop} [Decidable A] [Decidable B] {α : Type}
    (x y : α) :
    (if A then (if B then x else y) else y) = if A ∧ B then x else y := by
  by_cases hA : A <;> by_cases hB : B <;> simp [hA, hB]

/-- C4: for every raw address, the candidate list built by
`geocode_bali` has the shape the spec describes — first the (nonempty)
normalized address, then the first-two-segments join exactly when ≥ 2
segments exist and it differs case-insensitively, then the
first-segment+", Bali, Indonesia" exactly when case-insensitively new —
and it is ordered, at most three long, and case-insensitively
duplicate-free. -/
theorem c4_candidate_structure (raw : String) :
    ∃ p ps, addrPartsS (normalize_address raw) = p :: ps ∧
      geocodeCandidates raw
        = candidatesSpecC4 (normalize_address raw) p
            (addrPartsS (normalize_address raw)) ∧
      (geocodeCandidates raw).head? = some (normalize_address raw) ∧
      (geocodeCandidates raw).length ≤ 3 ∧
      ((geocodeCandidates raw).map lowerStr).Nodup := by
  cases hparts : addrPartsS (normalize_address raw) with
  | nil => exact absurd hparts (addrPartsS_normalize_ne_nil raw)
  | cons p ps =>
    have heq : geocodeCandidates raw
        = candidatesSpecC4 (normalize_address raw) p (p :: ps) := by
      simp only [geocodeCandidates, candidatesSpecC4, hparts]
      rw [if_and_eq]
    refine ⟨p, ps, rfl, heq, ?_, ?_, ?_⟩
    · rw [heq]
      simp only [candidatesSpecC4]
      split_ifs <;> simp
    · rw [heq]
      simp only [candidatesSpecC4]
      split_ifs <;> simp
    · rw [heq]
      simp only [candidatesSpecC4]
      split_ifs with hA hB hB
      · simp only [List.map_cons, List.map_nil, List.nodup_cons,
          List.mem_singleton, List.not_mem_nil, not_false_iff, and_true,
          List.nodup_nil]
        exact fun h => hA.2 h.symm
      · simp only [List.map_append, List.map_cons, List.map_nil,
          List.cons_append, List.nil_append]
        refine List.nodup_cons.mpr ⟨?_, List.nodup_cons.mpr
          ⟨?_, List.nodup_singleton _⟩⟩
        · intro hmem
          rcases List.mem_cons.mp hmem with h | h
          · exact hA.2 h.symm
          · have h2 := List.mem_singleton.mp h
            apply hB
            apply List.elem_iff.mpr
            simp only [List.map_cons, List.map_nil]
            rw [← h2]
            exact List.mem_cons_self _ _
        · intro hmem
          have h := List.mem_singleton.mp hmem
          apply hB
          apply List.elem_iff.mpr
          simp only [List.map_cons, List.map_nil]
          rw [← h]
          exact List.mem_cons_of_mem _ (List.mem_cons_self _ _)
      · simp
      · simp only [List.map_append, List.map_cons, List.map_nil,
          List.cons_append, List.nil_append]
        refine List.nodup_cons.mpr ⟨?_, List.nodup_singleton _⟩
        intro hmem
        have h := List.mem_singleton.mp hmem
        apply hB
        apply List.elem_iff.mpr
        simp only [List.map_cons, List.map_nil]
        rw [← h]
        exact List.mem_cons_self _ _

/-- C4, witness: the structure theorem instantiated at a concrete raw
address with three distinct candidates. -/
theorem c4_candidate_structure_witness :
    ∃ p ps, addrPartsS (normalize_address "Warung X, Jl. Raya, Kuta, Bali")
        = p :: ps ∧
      geocodeCandidates "Warung X, Jl. Raya, Kuta, Bali"
        = candidatesSpecC4 (normalize_address "Warung X, Jl. Raya, Kuta, Bali") p
            (addrPartsS (normalize_address "Warung X, Jl. Raya, Kuta, Bali")) ∧
      (geocodeCandidates "Warung X, Jl. Raya, Kuta, Bali").head?
        = some (normalize_address "Warung X, Jl. Raya, Kuta, Bali") ∧
      (geocodeCandidates "Warung X, Jl. Raya, Kuta, Bali").length ≤ 3 ∧
      ((geocodeCandidates "Warung X, Jl. Raya, Kuta, Bali").map lowerStr).Nodup :=
  c4_candidate_structure "Warung X, Jl. Raya, Kuta, Bali"

/-! ### Claim C5 — the normalization example (code bug) -/

/-- C5: evaluating the embedded `normalize_address` at the spec's own
example shows the divergence.  `re.sub(r"\bJl\.?\b", ...)` cannot
consume the dot of "Jl." when a space follows (no word boundary between
'.' and ' '), so the output keeps the dot: "Jalan. Tibung Sari, ...".
The claimed substring "Jalan Tibung Sari, Denpasar" does not occur,
although the postal code is removed and the region/country literals are
appended as claimed. -/
theorem c5_normalize_example_keeps_dot :
    normalize_address "Jl. Tibung Sari, Denpasar, 80222"
      = "Jalan. Tibung Sari, Denpasar, Bali, Indonesia" ∧
    chSub "Jalan Tibung Sari, Denpasar".data
      (normalize_address "Jl. Tibung Sari, Denpasar, 80222").data = false ∧
    chSub "80222".data
      (normalize_address "Jl. Tibung Sari, Denpasar, 80222").data = false ∧
    lowerContains (normalize_address "Jl. Tibung Sari, Denpasar, 80222")
      ['b', 'a', 'l', 'i'] = true ∧
    lowerContains (normalize_address "Jl. Tibung Sari, Denpasar, 80222")
      "indonesia".data = true := by
  refine ⟨by decide, by decide, by decide, by decide, by decide⟩

/-! ### Claim C6 — paired coordinate update -/

/-- C6: when an existing venue's stored latitude or longitude differs
from the freshly resolved pair (including when only one of them does),
the reconciler rewrites both coordinates together, the record counts as
Updated, and in general the reconciler output's coordinate pair always
equals either the stored pair or the resolved pair as a unit. -/
theorem c6_paired_coordinate_update (g : Oracle) (tries : Nat)
    (st : LoopState) (r : RowR) (loc : Coord) (cache' : Cache) (ex : Venue)
    (hval : validRow r = true)
    (hg : geocode_bali g st.cache (rowAddr r) tries = (some loc, cache'))
    (hf : findVenue st.db (rowName r) = some ex)
    (hne : ex.lat ≠ loc.lat ∨ ex.lon ≠ loc.lon) :
    (processRow g tries st r).cnt.updated = st.cnt.updated + 1 ∧
    (∃ v', findVenue (processRow g tries st r).db (rowName r) = some v' ∧
      v'.lat = loc.lat ∧ v'.lon = loc.lon) ∧
    (∀ (ex' : Venue) (a : String) (l : Coord) (i w : Option String),
      ((reconcileVenue ex' a l i w).1.lat = ex'.lat ∧
       (reconcileVenue ex' a l i w).1.lon = ex'.lon) ∨
      ((reconcileVenue ex' a l i w).1.lat = l.lat ∧
       (reconcileVenue ex' a l i w).1.lon = l.lon)) := by
  have hvalf := validRow_iff.mp hval
  have hch : (reconcileVenue ex (rowAddr r) loc (rowInstaName r)
      (resolve_website (some (rowLink r)))).2 = true :=
    reconcileVenue_changed_latlon hne
  obtain ⟨hn, ha, hla, hlo, hin, -, -⟩ :=
    reconcileVenue_fields ex (rowAddr r) loc (rowInstaName r)
      (resolve_website (some (rowLink r)))
  rw [processRow_geo_some_existing hvalf hg hf]
  refine ⟨by simp [hch], ⟨_, ?_, hla, hlo⟩, ?_⟩
  · apply findVenue_replaceFirst_self hf
    rw [hn]
    exact findVenue_name hf
  · intro ex' a l i w
    right
    obtain ⟨-, -, hla', hlo', -, -, -⟩ := reconcileVenue_fields ex' a l i w
    exact ⟨hla', hlo'⟩

def c6Venue : Venue :=
  { name := "V", address := "A1", district := none, lat := 0, lon := 0,
    instagram := none, website := none, notes := none }

def c6State : LoopState :=
  { db := [c6Venue], cache := [("A1", { lat := 1, lon := 0 })],
    cnt := { created := 0, updated := 0, skipped := 0, failed := 0 } }

/-- C6, witness: a concrete state whose stored venue differs from the
cached coordinate only in latitude; the theorem applies and the record
counts as Updated with both coordinates rewritten. -/
theorem c6_paired_coordinate_update_witness :
    (validRow cexRow1 = true ∧
      geocode_bali cexOracle c6State.cache (rowAddr cexRow1) 2
        = (some { lat := 1, lon := 0 }, c6State.cache) ∧
      findVenue c6State.db (rowName cexRow1) = some c6Venue ∧
      (c6Venue.lat ≠ (1 : Rat) ∨ c6Venue.lon ≠ (0 : Rat))) ∧
    ((processRow cexOracle 2 c6State cexRow1).cnt.updated
        = c6State.cnt.updated + 1 ∧
     (∃ v', findVenue (processRow cexOracle 2 c6State cexRow1).db
          (rowName cexRow1) = some v' ∧
        v'.lat = (1 : Rat) ∧ v'.lon = (0 : Rat)) ∧
     (∀ (ex' : Venue) (a : String) (l : Coord) (i w : Option String),
      ((reconcileVenue ex' a l i w).1.lat = ex'.lat ∧
       (reconcileVenue ex' a l i w).1.lon = ex'.lon) ∨
      ((reconcileVenue ex' a l i w).1.lat = l.lat ∧
       (reconcileVenue ex' a l i w).1.lon = l.lon))) :=
  ⟨⟨by decide, by decide, by decide, by decide⟩,
    c6_paired_coordinate_update cexOracle 2 c6State cexRow1
      { lat := 1, lon := 0 } c6State.cache c6Venue
      (by decide) (by decide) (by decide) (by decide)⟩

/-! ### Claim C10 — the instagram handle can be cleared -/

/-- C10: blank or missing Instagram name fields clean to `None`; the
reconciler always overwrites the stored handle with the cleaned incoming
one; and when the stored handle was non-null, the incoming one is null
and no other field differs, the record still counts as Updated with the
handle cleared. -/
theorem c10_instagram_can_be_cleared (ex : Venue) (a : String) (l : Coord)
    (w : Option String) (h0 : String)
    (hpre : ex.instagram = some h0)
    (ha : ex.address = a) (hla : ex.lat = l.lat) (hlo : ex.lon = l.lon)
    (hw : optTruthy w = true → ex.website = w) :
    clean_instagram none = none ∧
    (∀ s, pyStrip s = "" → clean_instagram (some s) = none) ∧
    (∀ i, (reconcileVenue ex a l i w).1.instagram = i) ∧
    reconcileVenue ex a l none w
      = ({ ex with instagram := none }, true) := by
  refine ⟨rfl, ?_, ?_, ?_⟩
  · intro s hs
    unfold clean_instagram
    dsimp only
    by_cases he : strEmpty s = true
    · rw [if_pos he]
    · rw [if_neg he, hs]
      decide
  · intro i
    exact (reconcileVenue_fields ex a l i w).2.2.2.2.1
  · have hch : (reconcileVenue ex a l none w).2 = true :=
      reconcileVenue_changed_insta (by rw [hpre]; simp)
    obtain ⟨hn, ha', hla', hlo', hin, hw1, hw2⟩ :=
      reconcileVenue_fields ex a l none w
    have hd : (reconcileVenue ex a l none w).1.district = ex.district := by
      unfold reconcileVenue recon1 recon2 recon3 recon4
      split_ifs <;> simp
    have hno : (reconcileVenue ex a l none w).1.notes = ex.notes := by
      unfold reconcileVenue recon1 recon2 recon3 recon4
      split_ifs <;> simp
    have hweb : (reconcileVenue ex a l none w).1.website = ex.website := by
      cases hwt : optTruthy w with
      | true => rw [hw1 hwt, ← hw hwt]
      | false => exact hw2 hwt
    have hfst : (reconcileVenue ex a l none w).1 = { ex with instagram := none } := by
      cases hv : (reconcileVenue ex a l none w).1 with
      | mk nm ad di la lo ig wb nt =>
        rw [hv] at hn ha' hla' hlo' hin hweb hd hno
        simp only [Venue.mk.injEq]
        refine ⟨hn, ?_, hd, ?_, ?_, hin, hweb, hno⟩
        · rw [ha]; exact ha'
        · rw [hla]; exact hla'
        · rw [hlo]; exact hlo'
    have heta : reconcileVenue ex a l none w
        = ((reconcileVenue ex a l none w).1, (reconcileVenue ex a l none w).2) := rfl
    rw [heta, hfst, hch]


def c10Venue : Venue :=
  { name := "V", address := "A1", district := none, lat := 1, lon := 0,
    instagram := some "ig", website := none, notes := none }

/-- C10, witness: a stored venue with a non-null handle, an incoming row
whose cleaned handle is null, no other field differing. -/
theorem c10_instagram_can_be_cleared_witness :
    (c10Venue.instagram = some "ig" ∧ c10Venue.address = "A1" ∧
      c10Venue.lat = (Coord.mk 1 0).lat ∧ c10Venue.lon = (Coord.mk 1 0).lon ∧
      (optTruthy none = true → c10Venue.website = none)) ∧
    (clean_instagram none = none ∧
     (∀ s, pyStrip s = "" → clean_instagram (some s) = none) ∧
     (∀ i, (reconcileVenue c10Venue "A1" (Coord.mk 1 0) i none).1.instagram = i) ∧
     reconcileVenue c10Venue "A1" (Coord.mk 1 0) none none
       = ({ c10Venue with instagram := none }, true)) :=
  ⟨⟨by decide, by decide, by decide, by decide, fun h => by cases h⟩,
    c10_instagram_can_be_cleared c10Venue "A1" (Coord.mk 1 0) none "ig"
      (by decide) (by decide) (by decide) (by decide) (fun h => by cases h)⟩

/-! ### C2: geocode cache invariants -/

/-- C2: the geocode cache invariants of `geocode_bali`.  (1) A failed
lookup leaves the cache exactly as it was; (2) any cache change consists
of inserting the successful result under the raw, whitespace-trimmed
address string (never the normalized form); (3) a key that already holds
a result short-circuits the call, returning the cached value with the
cache untouched (first success wins, never overwritten); (4) a single
call preserves every existing entry; (5) over a whole run, every entry
present at the start is still present, unchanged, in the flushed cache. -/
theorem c2_cache_invariants (g : Oracle) (tries : Nat) :
    (∀ cache raw cache', geocode_bali g cache raw tries = (none, cache') →
        cache' = cache)
  ∧ (∀ cache raw, (geocode_bali g cache raw tries).2 = cache ∨
        ∃ r, cacheLookup cache (pyStrip raw) = none ∧
          geocode_bali g cache raw tries =
            (some r, cache ++ [(pyStrip raw, r)]))
  ∧ (∀ cache raw v, cacheLookup cache (pyStrip raw) = some v →
        geocode_bali g cache raw tries = (some v, cache))
  ∧ (∀ cache raw k v, cacheLookup cache k = some v →
        cacheLookup (geocode_bali g cache raw tries).2 k = some v)
  ∧ (∀ dryRun db₀ cache₀ rows k v, cacheLookup cache₀ k = some v →
        cacheLookup (runImport g tries dryRun db₀ cache₀ rows).cacheOut k =
          some v) := by
  refine ⟨?_, ?_, ?_, ?_, ?_⟩
  · intro cache raw cache' h
    exact (geocode_bali_none_inv h).2.2
  · intro cache raw
    cases hc : cacheLookup cache (pyStrip raw) with
    | some w => left; rw [geocode_bali_hit hc]
    | none =>
      cases ht : pureLookup g tries raw with
      | some r => right; exact ⟨r, rfl, geocode_bali_miss_some hc ht⟩
      | none => left; rw [geocode_bali_miss_none hc ht]
  · intro cache raw v h
    exact geocode_bali_hit h
  · intro cache raw k v h
    exact geocode_bali_cache_mono h
  · intro dryRun db₀ cache₀ rows k v h
    have := @foldRows_cache_mono g tries rows
      (initState db₀ cache₀) k v h
    simpa [runImport] using this

/-- C2, witness: the hit clause applied at a one-entry cache. -/
theorem c2_cache_invariants_witness :
    cacheLookup [("A", ({ lat := 1, lon := 2 } : Coord))] (pyStrip "A") =
        some { lat := 1, lon := 2 } ∧
      geocode_bali cexOracle [("A", ({ lat := 1, lon := 2 } : Coord))] "A" 2 =
        (some { lat := 1, lon := 2 }, [("A", { lat := 1, lon := 2 })]) :=
  ⟨by decide,
   (c2_cache_invariants cexOracle 2).2.2.1 [("A", { lat := 1, lon := 2 })] "A"
     { lat := 1, lon := 2 } (by decide)⟩

/-! ### C3: first-success semantics of the candidate/retry loops -/

theorem tryAttempts_none_iff {g : Oracle} {cand : String} :
    ∀ {fuel t0 : Nat}, tryAttempts g cand t0 fuel = none ↔
      ∀ i, i < fuel → g cand (t0 + i) = none := by
  intro fuel
  induction fuel with
  | zero => intro t0; simp [tryAttempts]
  | succ n ih =>
    intro t0
    cases hg : g cand t0 with
    | some r =>
      simp only [tryAttempts, hg]
      constructor
      · intro h; exact absurd h (by simp)
      · intro h
        have := h 0 (Nat.succ_pos n)
        rw [Nat.add_zero] at this
        rw [this] at hg
        exact Option.noConfusion hg
    | none =>
      simp only [tryAttempts, hg]
      rw [ih]
      constructor
      · intro h i hi
        cases i with
        | zero => rw [Nat.add_zero]; exact hg
        | succ j =>
          have := h j (Nat.lt_of_succ_lt_succ hi)
          rw [show t0 + (j + 1) = t0 + 1 + j by omega]
          exact this
      · intro h i hi
        have := h (i + 1) (Nat.succ_lt_succ hi)
        rw [show t0 + 1 + i = t0 + (i + 1) by omega]
        exact this

theorem tryAttempts_some {g : Oracle} {cand : String} :
    ∀ {fuel t0 : Nat} {r : Coord}, tryAttempts g cand t0 fuel = some r →
      ∃ i, i < fuel ∧ g cand (t0 + i) = some r ∧
        ∀ j, j < i → g cand (t0 + j) = none := by
  intro fuel
  induction fuel with
  | zero => intro t0 r h; exact Option.noConfusion h
  | succ n ih =>
    intro t0 r h
    cases hg : g cand t0 with
    | some r' =>
      simp only [tryAttempts, hg] at h
      refine ⟨0, Nat.succ_pos n, ?_, ?_⟩
      · rw [Nat.add_zero, hg, h]
      · intro j hj; exact absurd hj (Nat.not_lt_zero j)
    | none =>
      simp only [tryAttempts, hg] at h
      obtain ⟨i, hi, hgi, hjs⟩ := ih h
      refine ⟨i + 1, Nat.succ_lt_succ hi, ?_, ?_⟩
      · rw [show t0 + (i + 1) = t0 + 1 + i by omega]; exact hgi
      · intro j hj
        cases j with
        | zero => rw [Nat.add_zero]; exact hg
        | succ j' =>
          rw [show t0 + (j' + 1) = t0 + 1 + j' by omega]
          exact hjs j' (Nat.lt_of_succ_lt_succ hj)

theorem tryCandidates_none_iff {g : Oracle} {tries : Nat} :
    ∀ {cands : List String}, tryCandidates g tries cands = none ↔
      ∀ c ∈ cands, ∀ i, i < tries → g c i = none := by
  intro cands
  induction cands with
  | nil => simp [tryCandidates]
  | cons c cs ih =>
    cases ha : tryAttempts g c 0 tries with
    | some r =>
      simp only [tryCandidates, ha]
      constructor
      · intro h; exact absurd h (by simp)
      · intro h
        have : tryAttempts g c 0 tries = none := by
          rw [tryAttempts_none_iff]
          intro i hi
          rw [Nat.zero_add]
          exact h c (List.mem_cons_self c cs) i hi
        rw [this] at ha
        exact Option.noConfusion ha
    | none =>
      simp only [tryCandidates, ha]
      rw [ih]
      have hc : ∀ i, i < tries → g c i = none := by
        intro i hi
        have := tryAttempts_none_iff.mp ha i hi
        rwa [Nat.zero_add] at this
      constructor
      · intro h c' hc' i hi
        rcases List.mem_cons.mp hc' with rfl | hmem
        · exact hc i hi
        · exact h c' hmem i hi
      · intro h c' hc' i hi
        exact h c' (List.mem_cons_of_mem c hc') i hi

theorem tryCandidates_some {g : Oracle} {tries : Nat} :
    ∀ {cands : List String} {r : Coord}, tryCandidates g tries cands = some r →
      ∃ pre c post i, cands = pre ++ c :: post ∧ i < tries ∧ g c i = some r ∧
        (∀ c' ∈ pre, ∀ j, j < tries → g c' j = none) ∧
        (∀ j, j < i → g c j = none) := by
  intro cands
  induction cands with
  | nil => intro r h; exact Option.noConfusion h
  | cons c cs ih =>
    intro r h
    cases ha : tryAttempts g c 0 tries with
    | some r' =>
      simp only [tryCandidates, ha] at h
      obtain ⟨i, hi, hgi, hjs⟩ := tryAttempts_some ha
      rw [Nat.zero_add] at hgi
      refine ⟨[], c, cs, i, by simp, hi, by rw [hgi, h], by simp, ?_⟩
      intro j hj
      have := hjs j hj
      rwa [Nat.zero_add] at this
    | none =>
      simp only [tryCandidates, ha] at h
      obtain ⟨pre, c', post, i, hsplit, hi, hgi, hpre, hjs⟩ := ih h
      refine ⟨c :: pre, c', post, i, by rw [hsplit]; rfl, hi, hgi, ?_, hjs⟩
      intro c'' hc'' j hj
      rcases List.mem_cons.mp hc'' with rfl | hmem
      · have := tryAttempts_none_iff.mp ha j hj
        rwa [Nat.zero_add] at this
      · exact hpre c'' hmem j hj

/-- C3: on a cache miss, `geocode_bali` returns `None` — as a value,
never a fault, since the embedding is a total function into an option —
precisely when every candidate in the ordered list fails all `tries`
attempts; and a returned coordinate is the answer of the first
successful attempt: all earlier candidates fail every attempt and all
earlier attempts of the successful candidate fail. -/
theorem c3_first_success (g : Oracle) (tries : Nat) (cache : Cache)
    (raw : String) (hmiss : cacheLookup cache (pyStrip raw) = none) :
    ((geocode_bali g cache raw tries).1 = none ↔
        ∀ c ∈ geocodeCandidates raw, ∀ i, i < tries → g c i = none)
  ∧ (∀ r, (geocode_bali g cache raw tries).1 = some r →
        ∃ pre c post i, geocodeCandidates raw = pre ++ c :: post ∧
          i < tries ∧ g c i = some r ∧
          (∀ c' ∈ pre, ∀ j, j < tries → g c' j = none) ∧
          (∀ j, j < i → g c j = none)) := by
  have hfst : (geocode_bali g cache raw tries).1 =
      tryCandidates g tries (geocodeCandidates raw) := by
    cases h : tryCandidates g tries (geocodeCandidates raw) <;>
      simp [geocode_bali, hmiss, h]
  rw [hfst]
  exact ⟨tryCandidates_none_iff, fun r h => tryCandidates_some h⟩

/-- C3, witness: the characterization applied at an empty cache. -/
theorem c3_first_success_witness :
    cacheLookup [] (pyStrip "A") = none ∧
      ((geocode_bali cexOracle [] "A" 2).1 = none ↔
        ∀ c ∈ geocodeCandidates "A", ∀ i, i < 2 → cexOracle c i = none) :=
  ⟨rfl, (c3_first_success cexOracle 2 [] "A" rfl).1⟩

/-! ### C7: the website rule -/

theorem toNat_ofNat_of_valid {n : Nat} (h : n.isValidChar) :
    (Char.ofNat n).toNat = n := by
  unfold Char.ofNat
  rw [dif_pos h]
  rfl

theorem char_eq_of_toNat_eq {c d : Char} (h : c.toNat = d.toNat) : c = d := by
  have h2 := congrArg Char.ofNat h
  rwa [Char.ofNat_toNat, Char.ofNat_toNat] at h2

/-- `toLower` cannot produce a character below the uppercase range, so
equality with such a character is unaffected by lowering. -/
theorem toLower_eq_iff_of_lt {c d : Char} (hd : d.toNat < 65) :
    c.toLower = d ↔ c = d := by
  constructor
  · intro h
    unfold Char.toLower at h
    by_cases hc : c.toNat ≥ 65 ∧ c.toNat ≤ 90
    · rw [if_pos hc] at h
      exfalso
      have hv : (c.toNat + 32).isValidChar := Or.inl (by omega)
      have h2 := congrArg Char.toNat h
      rw [toNat_ofNat_of_valid hv] at h2
      omega
    · rw [if_neg hc] at h; exact h
  · intro h
    subst h
    unfold Char.toLower
    rw [if_neg (by omega)]

theorem char_beq_comm (a b : Char) : (a == b) = (b == a) := by
  apply Bool.eq_iff_iff.mpr
  constructor
  · intro h
    exact beq_iff_eq.mpr (beq_iff_eq.mp h).symm
  · intro h
    exact beq_iff_eq.mpr (beq_iff_eq.mp h).symm

theorem beq_toLower_symbol {c d : Char} (hd : d.toNat < 65) :
    (c.toLower == d) = (c == d) := by
  apply Bool.eq_iff_iff.mpr
  simpa [beq_iff_eq] using toLower_eq_iff_of_lt (c := c) hd

theorem symbol_beq_toLower {c d : Char} (hd : d.toNat < 65) :
    (d == c.toLower) = (d == c) := by
  rw [char_beq_comm d c.toLower, beq_toLower_symbol hd, char_beq_comm]

/-- On a pattern of non-letter symbols, exact matching ignores a
lowercase mapping of the text. -/
theorem chPre_map_toLower_symbols :
    ∀ {pat l : List Char}, (∀ d ∈ pat, d.toNat < 65) →
      chPre pat (l.map Char.toLower) = chPre pat l := by
  intro pat
  induction pat with
  | nil => intro l _; rfl
  | cons p ps ih =>
    intro l hd
    cases l with
    | nil => rfl
    | cons c cs =>
      have hp : p.toNat < 65 := hd p (List.mem_cons_self p ps)
      have hps : ∀ d ∈ ps, d.toNat < 65 :=
        fun d hm => hd d (List.mem_cons_of_mem p hm)
      simp only [List.map_cons, chPre]
      rw [symbol_beq_toLower hp, ih hps]

theorem chPre_append : ∀ (p1 p2 l : List Char),
    chPre (p1 ++ p2) l = (chPre p1 l && chPre p2 (l.drop p1.length)) := by
  intro p1
  induction p1 with
  | nil =>
    intro p2 l
    show chPre p2 l = (true && chPre p2 l)
    rw [Bool.true_and]
  | cons p ps ih =>
    intro p2 l
    cases l with
    | nil =>
      show false = (false && chPre p2 ([].drop (p :: ps).length))
      rw [Bool.false_and]
    | cons c cs =>
      show (p == c && chPre (ps ++ p2) cs) =
        (p == c && chPre ps cs && chPre p2 (cs.drop ps.length))
      rw [ih, Bool.and_assoc]

theorem dropCI_isSome_eq_chPre : ∀ (pat l : List Char),
    (dropCI pat l).isSome = chPre pat (l.map Char.toLower) := by
  intro pat
  induction pat with
  | nil => intro l; rfl
  | cons p ps ih =>
    intro l
    cases l with
    | nil => rfl
    | cons c cs =>
      simp only [dropCI, List.map_cons, chPre]
      cases hb : (c.toLower == p) with
      | true =>
        rw [if_pos rfl, ih, char_beq_comm p c.toLower, hb, Bool.true_and]
      | false =>
        rw [if_neg (by simp [hb]), char_beq_comm p c.toLower, hb]
        rfl

theorem dropCI_some_eq_drop : ∀ {pat l rest : List Char},
    dropCI pat l = some rest → rest = l.drop pat.length := by
  intro pat
  induction pat with
  | nil =>
    intro l rest h
    simp only [dropCI, Option.some.injEq] at h
    rw [← h]; rfl
  | cons p ps ih =>
    intro l rest h
    cases l with
    | nil => exact Option.noConfusion h
    | cons c cs =>
      simp only [dropCI] at h
      by_cases hb : (c.toLower == p) = true
      · rw [if_pos hb] at h
        simpa using ih h
      · rw [if_neg hb] at h
        exact Option.noConfusion h

/-- Spec-side scheme check: the text begins with `http://` or
`https://`, case-insensitively. -/
def startsWithHttpCI (l : List Char) : Bool :=
  chPre "http://".data (l.map Char.toLower) ||
    chPre "https://".data (l.map Char.toLower)

/-- Spec-side `resolve_website`: keep the trimmed link exactly when it
begins with an http or https scheme, case-insensitively; otherwise
discard it to null. -/
def resolve_websiteSpec : Option String → Option String
  | none => none
  | some link =>
    if strEmpty link then none
    else
      let u := pyStrip link
      if startsWithHttpCI u.data then some u else none

theorem httpSchemeMatch_eq_spec (l : List Char) :
    httpSchemeMatch l = startsWithHttpCI l := by
  have e7 : ("http://".data : List Char) =
      ['h', 't', 't', 'p'] ++ [':', '/', '/'] := by decide
  have e8 : ("https://".data : List Char) =
      ['h', 't', 't', 'p'] ++ ('s' :: [':', '/', '/']) := by decide
  unfold httpSchemeMatch startsWithHttpCI
  rw [e7, e8, chPre_append, chPre_append]
  cases hd : dropCI ['h', 't', 't', 'p'] l with
  | none =>
    have h4 : chPre ['h', 't', 't', 'p'] (l.map Char.toLower) = false := by
      rw [← dropCI_isSome_eq_chPre, hd]; rfl
    rw [h4]
    simp
  | some rest =>
    have h4 : chPre ['h', 't', 't', 'p'] (l.map Char.toLower) = true := by
      rw [← dropCI_isSome_eq_chPre, hd]; rfl
    have hrest : rest = l.drop 4 := dropCI_some_eq_drop hd
    have hmapdrop : (l.map Char.toLower).drop 4 = rest.map Char.toLower := by
      rw [hrest, List.map_drop]
    rw [h4, Bool.true_and, Bool.true_and]
    dsimp only
    rw [show (['h', 't', 't', 'p'] : List Char).length = 4 from rfl, hmapdrop]
    cases rest with
    | nil => rfl
    | cons c rs =>
      dsimp only [List.map_cons, chPre]
      cases hs : (c.toLower == 's') with
      | true =>
        have hcs : c.toLower = 's' := by simpa [beq_iff_eq] using hs
        have hcolon : ((':' : Char) == c.toLower) = false := by
          rw [hcs]; rfl
        have hss : (('s' : Char) == c.toLower) = true := by
          rw [hcs]; rfl
        rw [if_pos rfl, hcolon, hss, Bool.false_and, Bool.true_and,
          Bool.false_or]
        exact (chPre_map_toLower_symbols (by decide)).symm
      | false =>
        have hss : (('s' : Char) == c.toLower) = false := by
          rw [char_beq_comm]; exact hs
        rw [if_neg (by simp [hs]), hss, Bool.false_and, Bool.or_false]
        show ((':' : Char) == c && chPre "//".data rs) = _
        rw [symbol_beq_toLower (by decide)]
        have h2 : chPre "//".data (rs.map Char.toLower) = chPre "//".data rs :=
          chPre_map_toLower_symbols (by decide)
        rw [h2]

theorem resolve_website_eq_spec (x : Option String) :
    resolve_website x = resolve_websiteSpec x := by
  cases x with
  | none => rfl
  | some link =>
    unfold resolve_website resolve_websiteSpec
    dsimp only
    rw [httpSchemeMatch_eq_spec]

theorem resolve_website_truthy (x : Option String) :
    optTruthy (resolve_website x) = (resolve_website x).isSome := by
  cases x with
  | none => rfl
  | some link =>
    unfold resolve_website
    dsimp only
    by_cases he : strEmpty link = true
    · rw [if_pos he]; rfl
    · rw [if_neg he]
      by_cases hh : httpSchemeMatch (pyStrip link).data = true
      · rw [if_pos hh]
        have hne : (pyStrip link).data ≠ [] := by
          intro h0
          rw [h0] at hh
          exact absurd hh (by decide)
        show (!strEmpty (pyStrip link)) = true
        cases hdata : (pyStrip link).data with
        | nil => exact absurd hdata hne
        | cons a as => simp [strEmpty, hdata]
      · rw [if_neg hh]; rfl

/-- C7: the website rule.  `resolve_website` coincides with the
spec-side rule — keep the trimmed link exactly when it begins with an
http or https scheme, case-insensitively, else discard to null; a
non-null resolved website is always truthy; and in the update branch of
the reconciler a falsy (in particular null) resolved website never
touches the stored website, while a truthy one is always stored. -/
theorem c7_website_rule :
    (∀ link, resolve_website link = resolve_websiteSpec link)
  ∧ (∀ link, optTruthy (resolve_website link) = (resolve_website link).isSome)
  ∧ (∀ ex a loc insta w, optTruthy w = false →
        ((reconcileVenue ex a loc insta w).1).website = ex.website)
  ∧ (∀ ex a loc insta w, optTruthy w = true →
        ((reconcileVenue ex a loc insta w).1).website = w) := by
  refine ⟨resolve_website_eq_spec, resolve_website_truthy, ?_, ?_⟩
  · intro ex a loc insta w h
    exact (reconcileVenue_fields ex a loc insta w).2.2.2.2.2.2 h
  · intro ex a loc insta w h
    exact (reconcileVenue_fields ex a loc insta w).2.2.2.2.2.1 h

/-- C7, witness: a truthy resolved website is stored on update. -/
theorem c7_website_rule_witness :
    optTruthy (some "https://x.id") = true ∧
      ((reconcileVenue
          { name := "V", address := "A", district := none, lat := 0, lon := 0,
            instagram := none, website := none, notes := none }
          "A" { lat := 0, lon := 0 } none (some "https://x.id")).1).website =
        some "https://x.id" :=
  ⟨by decide, c7_website_rule.2.2.2
    { name := "V", address := "A", district := none, lat := 0, lon := 0,
      instagram := none, website := none, notes := none }
    "A" { lat := 0, lon := 0 } none (some "https://x.id") (by decide)⟩

/-! ### C9: header tolerance and exit code 2 -/

/-- A stripped header never begins with a space, so the literal
`" Instgram link"` can never appear among the stripped headers. -/
theorem pyStrip_ne_leading_space (s : String) : pyStrip s ≠ " Instgram link" := by
  intro h
  have hd : trimChars s.data = (" Instgram link").data := congrArg String.data h
  have h2 : trimChars s.data = ' ' :: "Instgram link".data :=
    hd.trans (by decide)
  have h3 := trimChars_head_not_ws h2
  exact absurd h3 (by decide)

theorem not_contains_leading_space (fieldnames : List String) :
    ((fieldnames.map pyStrip).contains " Instgram link") = false := by
  cases hc : ((fieldnames.map pyStrip).contains " Instgram link") with
  | false => rfl
  | true =>
    exfalso
    have hm : (" Instgram link" : String) ∈ fieldnames.map pyStrip :=
      List.elem_iff.mp hc
    obtain ⟨s, _, hs⟩ := List.mem_map.mp hm
    exact pyStrip_ne_leading_space s hs

/-- The header check passes exactly when the four columns `Venue`,
`Address / Notes`, `Instagram name` and (misspelled) `Instgram link`
all appear among the whitespace-stripped header cells. -/
theorem headerMissing_false_iff (fieldnames : List String) :
    headerMissing fieldnames = false ↔
      ∀ w ∈ (["Venue", "Address / Notes", "Instagram name",
          "Instgram link"] : List String), w ∈ fieldnames.map pyStrip := by
  unfold headerMissing wantedHeaders
  dsimp only
  by_cases hIG : ("Instgram link" : String) ∈ fieldnames.map pyStrip
  · rw [if_pos ⟨List.elem_iff.mpr hIG, by
      rw [not_contains_leading_space]; exact Bool.false_ne_true⟩]
    simp [List.any_eq_false, List.elem_iff]
  · rw [if_neg (by
      intro hc
      exact hIG (List.elem_iff.mp hc.1))]
    constructor
    · intro h
      exfalso
      have := List.any_eq_false.mp h " Instgram link" (by decide)
      rw [not_contains_leading_space] at this
      exact this rfl
    · intro h
      exfalso
      exact hIG (h "Instgram link" (by decide))

/-- C9, counterexample: the claim fails as stated — a CSV header that
spells the link column correctly, `"Instagram link"`, is rejected: the
run aborts with exit code 2 before processing any record. -/
theorem c9_counterexample :
    runMain cexOracle 2
      ["Venue", "Address / Notes", "Instagram name", "Instagram link"]
      false [] [] [] = Except.error 2 := by
  have h : headerMissing
      ["Venue", "Address / Notes", "Instagram name", "Instagram link"] = true := by
    decide
  unfold runMain
  rw [if_pos h]

/-- C9, amended: `main` exits with code 2, before any record is
processed, exactly when one of the four required columns — `Venue`,
`Address / Notes`, `Instagram name` and the misspelled `Instgram link` —
is absent from the whitespace-stripped header cells.  Whitespace
variants of these spellings are tolerated (cells are stripped before
comparison), but the correctly spelled `Instagram link` is not. -/
theorem c9_header_exit2 (g : Oracle) (tries : Nat) (fieldnames : List String)
    (dryRun : Bool) (db₀ : List Venue) (cache₀ : Cache) (rows : List RowR) :
    runMain g tries fieldnames dryRun db₀ cache₀ rows = Except.error 2 ↔
      ¬ ∀ w ∈ (["Venue", "Address / Notes", "Instagram name",
          "Instgram link"] : List String), w ∈ fieldnames.map pyStrip := by
  unfold runMain
  cases hx : headerMissing fieldnames with
  | true =>
    rw [if_pos rfl]
    constructor
    · intro _ hall
      have h2 := (headerMissing_false_iff fieldnames).mpr hall
      rw [hx] at h2
      exact Bool.noConfusion h2
    · intro _; rfl
  | false =>
    rw [if_neg Bool.false_ne_true]
    constructor
    · intro hcontra
      exact Except.noConfusion hcontra
    · intro hneg
      exact absurd ((headerMissing_false_iff fieldnames).mp hx) hneg

/-- C9, witness: the amended characterization instantiated at the
tolerated misspelled header with surrounding whitespace. -/
theorem c9_header_exit2_witness :
    runMain cexOracle 2
        [" Venue ", "Address / Notes", "Instagram name", " Instgram link "]
        false [] [] [] = Except.error 2 ↔
      ¬ ∀ w ∈ (["Venue", "Address / Notes", "Instagram name",
          "Instgram link"] : List String),
        w ∈ ([" Venue ", "Address / Notes", "Instagram name",
          " Instgram link "] : List String).map pyStrip :=
  c9_header_exit2 cexOracle 2
    [" Venue ", "Address / Notes", "Instagram name", " Instgram link "]
    false [] [] []
